import Mathlib

/-!
Verification development for the `casual_network_scholar` repository: a
browser-based research assistant that ingests academic documents (plain
text, DOCX, PDF with OCR fallback), extracts a causal variable graph via an
LLM round trip and generates topic suggestions.  The definitions below are
a shallow embedding of the TypeScript/JavaScript source:

  * `detectDominantLanguage`, `parseJsonResponse`, `extractCausalGraph`
    and `generateTopicSuggestions` from `services/geminiService.ts`
  * the Netlify proxy `handler` from `netlify/functions/gemini-proxy.js`
  * `withTimeout`, the per-file body of `handleFileChange`, and the batch
    bookkeeping (file slicing, paper-id assignment, file lookup) from
    `App.tsx`
  * `handleAddConcept` from `components/ClusterPanel.tsx`

JavaScript strings are modelled as Lean `String`/`List Char`; the
`.length` of a JS string counts UTF-16 code units, modelled by `utf16Len`.
Asynchronous operations (file parsing, OCR, network fetches) are modelled
by environment records that record the already-decided outcome of each
awaited promise (resolution value, rejection message, or timeout), which
is faithful because the code awaits each of them sequentially.
-/

/-! ## JavaScript string primitives -/

/-- The character class matched by `\s` in a JavaScript regular expression
(also the set trimmed by `String.prototype.trim`). -/
def jsSpace (c : Char) : Bool :=
  c = ' ' || c = '\t' || c = '\n' || c.toNat = 0x0b || c.toNat = 0x0c ||
  c = '\r' || c.toNat = 0xa0 || c.toNat = 0x1680 ||
  (0x2000 ≤ c.toNat && c.toNat ≤ 0x200a) || c.toNat = 0x2028 ||
  c.toNat = 0x2029 || c.toNat = 0x202f || c.toNat = 0x205f ||
  c.toNat = 0x3000 || c.toNat = 0xfeff

/-- JavaScript `String.prototype.trim`, on the character list of a string. -/
def jsTrim (l : List Char) : List Char :=
  ((l.dropWhile jsSpace).reverse.dropWhile jsSpace).reverse

/-- Length of a string in UTF-16 code units, which is what `.length` of a
JavaScript string returns: code points above `U+FFFF` count twice. -/
def utf16Len (l : List Char) : Nat :=
  l.foldl (fun a c => a + (if 0x10000 ≤ c.toNat then 2 else 1)) 0

/-- JavaScript `s.startsWith(pre)`. -/
def jsStartsWith (s pre : String) : Bool :=
  pre.toList.isPrefixOf s.toList

/-- JavaScript `s.endsWith(suf)`. -/
def jsEndsWith (s suf : String) : Bool :=
  suf.toList.isSuffixOf s.toList

/-- JavaScript `arr.slice(0, e)` where `e` may be negative (in which case
it counts from the end of the array). -/
def jsSlice0 {α : Type} (l : List α) (e : Int) : List α :=
  l.take (if e < 0 then ((l.length : Int) + e).toNat else e.toNat)

/-! ## `detectDominantLanguage` (services/geminiService.ts)

```ts
export const detectDominantLanguage = (texts: string[]): 'en' | 'zh' => {
  let enChars = 0; let zhChars = 0;
  const enRegex = /[a-zA-Z]/g; const zhRegex = /[一-龥]/g;
  for (const text of texts) {
    if(!text) continue;
    enChars += (text.match(enRegex) || []).length;
    zhChars += (text.match(zhRegex) || []).length;
  }
  if (enChars + zhChars < 100) return 'en';
  return zhChars > enChars ? 'zh' : 'en';
};
```
-/

/-- The two language tags the service can return. -/
inductive Lang : Type where
  | en : Lang
  | zh : Lang
deriving DecidableEq, Repr

/-- Membership in the regex class `[a-zA-Z]`. -/
def isLatinChar (c : Char) : Bool :=
  ('a' ≤ c && c ≤ 'z') || ('A' ≤ c && c ≤ 'Z')

/-- Membership in the regex class `[一-龥]`. -/
def isCjkChar (c : Char) : Bool :=
  0x4e00 ≤ c.toNat && c.toNat ≤ 0x9fa5

/-- Number of `[a-zA-Z]` matches in one string. -/
def latinCount (s : String) : Nat := (s.toList.filter isLatinChar).length

/-- Number of `[一-龥]` matches in one string. -/
def cjkCount (s : String) : Nat := (s.toList.filter isCjkChar).length

/-- `detectDominantLanguage` from `services/geminiService.ts`: the loop
accumulates the two counters (skipping falsy, i.e. empty, strings) and the
final conditionals pick the language. -/
def detectDominantLanguage (texts : List String) : Lang :=
  let p := texts.foldl
    (fun (p : Nat × Nat) t =>
      if t = "" then p else (p.1 + latinCount t, p.2 + cjkCount t)) (0, 0)
  if p.1 + p.2 < 100 then .en
  else if p.1 < p.2 then .zh else .en

/-- Total count of Latin letters over a list of texts (specification-level
view of the `enChars` accumulator). -/
def latinTotal (texts : List String) : Nat :=
  texts.foldl (fun a t => a + latinCount t) 0

/-- Total count of CJK characters over a list of texts (specification-level
view of the `zhChars` accumulator). -/
def cjkTotal (texts : List String) : Nat :=
  texts.foldl (fun a t => a + cjkCount t) 0

/-! ## `parseJsonResponse` (services/geminiService.ts)

```ts
function parseJsonResponse(rawText: string): any {
    try { return JSON.parse(rawText); }
    catch (e) {
         const jsonRegex = /```json\s*([\s\S]*?)\s*```/;
         const match = rawText.match(jsonRegex);
         if (match && match[1]) {
             try { return JSON.parse(match[1]); } catch (innerError) { }
         }
         throw new Error("Response is not valid JSON, even after attempting to clean it.");
    }
}
```

`JSON.parse` is a platform primitive, so it is abstracted as a parameter
`jparse : String → Option α` (`none` models a parse exception).  The regex
is modelled concretely: the match starts at the leftmost occurrence of the
literal "```json" that is followed (after greedy `\s*`) by a lazily-minimal
capture closed by `\s*` and the literal "```". -/

/-- The three-backtick fence `\x60\x60\x60`. -/
def ticksList : List Char := "\x60\x60\x60".toList

/-- The opening fence literal `\x60\x60\x60json`. -/
def fenceList : List Char := "\x60\x60\x60json".toList

/-- Lazily-minimal capture of `([\s\S]*?)\s*` followed by the closing
fence: returns the shortest prefix of `l` whose remainder is a whitespace
run followed by three backticks, or `none` when no closing fence exists. -/
def findCapture : List Char → Option (List Char)
  | [] => none
  | c :: rest =>
    if ticksList.isPrefixOf ((c :: rest).dropWhile jsSpace) then some []
    else (findCapture rest).map (fun cap => c :: cap)

/-- Leftmost match of the regex ```` /```json\s*([\s\S]*?)\s*```/ ````:
scan for the opening fence, drop the greedy leading whitespace, then take
the lazily-minimal capture; if no closing fence follows this opening
fence, resume scanning at the next character. -/
def extractFenced : List Char → Option (List Char)
  | [] => none
  | c :: rest =>
    if fenceList.isPrefixOf (c :: rest) then
      match findCapture (((c :: rest).drop 7).dropWhile jsSpace) with
      | some cap => some cap
      | none => extractFenced rest
    else extractFenced rest

/-- Error message thrown when both parse attempts fail. -/
def cleanErrMsg : String :=
  "Response is not valid JSON, even after attempting to clean it."

/-- `parseJsonResponse` from `services/geminiService.ts`, parametric in
the `JSON.parse` primitive.  The `match[1]` truthiness test in the source
skips the inner parse when the capture is the empty string. -/
def parseJsonResponse {α : Type} (jparse : String → Option α)
    (rawText : String) : Except String α :=
  match jparse rawText with
  | some v => .ok v
  | none =>
    match extractFenced rawText.toList with
    | some cap =>
      if cap = [] then .error cleanErrMsg
      else
        match jparse (String.mk cap) with
        | some v => .ok v
        | none => .error cleanErrMsg
    | none => .error cleanErrMsg

/-! ## The Netlify proxy handler (netlify/functions/gemini-proxy.js)

The handler awaits, in order: `JSON.parse(event.body || "{}")` plus the
destructuring of `prompt`, the `API_KEY` environment variable check, the
upstream `fetch`, and then either `response.text()` (non-ok) or
`response.json()` (ok).  Each awaited/fallible step is recorded in a
`ProxyEnv`; `Except.error` carries the JavaScript error message. -/

/-- Outcome of the upstream `fetch` once resolved. -/
structure FetchResp (α : Type) : Type where
  ok : Bool
  status : Nat
  text : Except String String
  json : Except String α

/-- Environment of one proxy invocation: the parse of the request body
(`.ok` carries the destructured `prompt`, possibly `undefined` = `none`),
the `API_KEY` variable, and the result of the upstream fetch (`.error` =
network rejection). -/
structure ProxyEnv (α : Type) : Type where
  body : Except String (Option String)
  apiKey : Option String
  fetch : Except String (FetchResp α)

/-- Body of the HTTP response returned by the handler: either the upstream
data serialized as JSON, or a `{"error": msg}` object. -/
inductive ProxyBody (α : Type) : Type where
  | data : α → ProxyBody α
  | error : String → ProxyBody α
deriving DecidableEq

/-- The `try` block of the handler: everything up to the `return` of the
200 response, with every `throw` collected into `Except.error`. -/
def handlerCore {α : Type} (env : ProxyEnv α) : Except String α :=
  match env.body with
  | .error m => .error m
  | .ok _prompt =>
    if env.apiKey.getD "" = "" then
      .error "Missing Gemini API key (API_KEY not set)."
    else
      match env.fetch with
      | .error m => .error m
      | .ok resp =>
        if resp.ok then resp.json
        else
          match resp.text with
          | .error m => .error m
          | .ok errText =>
            .error ("Gemini API error " ++ Nat.repr resp.status ++ ": " ++ errText)

/-- The exported `handler`: wraps `handlerCore` in the `catch` clause,
which returns status 500 with `error.message || "Unknown error"`. -/
def handler {α : Type} (env : ProxyEnv α) : Nat × ProxyBody α :=
  match handlerCore env with
  | .ok d => (200, .data d)
  | .error m => (500, .error (if m = "" then "Unknown error" else m))

/-! ## The file-ingestion pipeline (App.tsx)

`handleFileChange` slices the incoming `FileList` to respect the 100-file
maximum, creates one paper record per accepted file with id
`` `${file.name}-${Date.now()}` ``, then processes the papers one at a
time: it looks the file up again by `paper.id.startsWith(f.name)`,
dispatches on the declared MIME type, runs the parse under `withTimeout`,
escalates PDFs with fewer than 100 trimmed characters to OCR, and finally
validates that the content has at least 100 trimmed characters.

The outcome of each awaited parse promise is part of the `FileModel`
environment: resolution with a string, rejection with a message, or
elapsing of the `withTimeout` timer.  `Date.now()` and JS number
formatting are platform primitives and are abstracted as parameters
(`clock : Nat → Nat` giving the reading at each call, `timeStr` the
number-to-string conversion). -/

/-- Outcome of one awaited parsing promise, as raced by `withTimeout`. -/
inductive OpOutcome : Type where
  | ok : String → OpOutcome
  | err : String → OpOutcome
  | timeout : OpOutcome
deriving DecidableEq

/-- One uploaded `File` together with the decided outcomes of the four
possible extraction routines (`file.text()`, `parseDocx`, `parsePdf`,
`ocrPdf`). -/
structure FileModel : Type where
  name : String
  type : String
  textResult : OpOutcome
  docxResult : OpOutcome
  pdfTextResult : OpOutcome
  ocrResult : OpOutcome

/-- `withTimeout` from `App.tsx`: resolves with the promise's value,
rejects with the promise's rejection, and rejects with `errorMessage`
when the timer fires first. -/
def withTimeout (o : OpOutcome) (errorMessage : String) : Except String String :=
  match o with
  | .ok s => .ok s
  | .err m => .error m
  | .timeout => .error errorMessage

/-- `PARSING_TIMEOUT` (30 seconds, in milliseconds). -/
def PARSING_TIMEOUT : Nat := 30000

/-- `OCR_TIMEOUT` (1 minute, in milliseconds). -/
def OCR_TIMEOUT : Nat := 60000

/-- Which extraction routine a `withTimeout` call runs. -/
inductive AttemptKind : Type where
  | text : AttemptKind
  | docx : AttemptKind
  | pdfText : AttemptKind
  | ocr : AttemptKind
deriving DecidableEq

/-- The DOCX MIME type tested by `handleFileChange`. -/
def docxMime : String :=
  "application/vnd.openxmlformats-officedocument.wordprocessingml.document"

/-- The type-dispatch part of the `try` block of `handleFileChange`,
instrumented with the list of `withTimeout` calls it performs (attempt
kind and timeout in milliseconds, in execution order).  Returns the
`content` variable or the thrown error. -/
def extractContentT (f : FileModel) :
    Except String String × List (AttemptKind × Nat) :=
  if f.type = "text/plain" then
    (withTimeout f.textResult "操作超时", [(.text, PARSING_TIMEOUT)])
  else if f.type = docxMime || jsEndsWith f.name ".docx" then
    (withTimeout f.docxResult "操作超时", [(.docx, PARSING_TIMEOUT)])
  else if f.type = "application/pdf" then
    match withTimeout f.pdfTextResult "初步文本提取超时。" with
    | .error m => (.error m, [(.pdfText, PARSING_TIMEOUT)])
    | .ok textContent =>
      if utf16Len (jsTrim textContent.toList) < 100 then
        (withTimeout f.ocrResult "OCR处理超时。文件可能过于复杂。",
         [(.pdfText, PARSING_TIMEOUT), (.ocr, OCR_TIMEOUT)])
      else
        (.ok textContent, [(.pdfText, PARSING_TIMEOUT)])
  else
    (.error ("不支持的文件类型: " ++ (if f.type = "" then "未知" else f.type)), [])

/-- Final state of one paper record after its loop iteration. -/
inductive PaperFinal : Type where
  | ready : String → PaperFinal
  | error : String → PaperFinal
deriving DecidableEq

/-- One iteration of the processing loop of `handleFileChange`: runs the
extraction, applies the final minimal-content check (`!content ||
content.trim().length < 100` throws), and maps the caught exception to an
`error` status with `e.message || '解析失败'`. -/
def processFile (f : FileModel) : PaperFinal :=
  match (extractContentT f).1 with
  | .ok content =>
    if content = "" || utf16Len (jsTrim content.toList) < 100 then
      .error "未能提取有效文本。文件可能是扫描图像、空文件或已损坏。"
    else .ready content
  | .error m => .error (if m = "" then "解析失败" else m)

/-- `Array.from(files).slice(0, 100 - papers.length)`: the accepted files
of one `handleFileChange` batch given the current length of `papers`. -/
def acceptedFiles (files : List FileModel) (papersLen : Nat) : List FileModel :=
  jsSlice0 files ((100 : Int) - (papersLen : Int))

/-- Ids of the new paper records of one batch:
`` `${file.name}-${Date.now()}` `` where `clock i` is the `Date.now()`
reading during the `i`-th record construction and `timeStr` is the JS
number-to-string conversion. -/
def newPaperIds (timeStr : Nat → String) (files : List FileModel)
    (clock : Nat → Nat) : List String :=
  files.enum.map (fun p => p.2.name ++ "-" ++ timeStr (clock p.1))

/-- `filesToAdd.find(f => paper.id.startsWith(f.name))`: index of the file
object the loop iteration actually processes for a paper id (`find`
returns the first match). -/
def pickedIdx (files : List FileModel) (pid : String) : Option Nat :=
  match files with
  | [] => none
  | f :: rest =>
    if jsStartsWith pid f.name then some 0
    else (pickedIdx rest pid).map (fun j => j + 1)

/-- The (file name, clock reading) pairs underlying the ids of one batch;
two ids collide exactly when their pairs do. -/
def namesAndTicks (files : List FileModel) (clock : Nat → Nat) :
    List (String × Nat) :=
  files.enum.map (fun p => (p.2.name, clock p.1))

/-- Picked file index for every paper of a batch, in processing order. -/
def pickedAll (timeStr : Nat → String) (files : List FileModel)
    (clock : Nat → Nat) : List (Option Nat) :=
  (newPaperIds timeStr files clock).map (pickedIdx files)

/-! ## `handleAddConcept` (components/ClusterPanel.tsx)

```ts
const handleAddConcept = () => {
    const name = newConceptInputRef.current?.value.trim();
    if (name) {
        const newConcept: Concept = { id: `${name}-${Date.now()}`, name: name, children: [] };
        onConceptsChange([...concepts, newConcept]);
        ...
    }
};
```
-/

/-- A graph node as produced by `extractCausalGraph` (the d3 simulation
fields are irrelevant to these claims and omitted). -/
structure TNode : Type where
  id : String
  isCore : Bool
  group : String
deriving DecidableEq

/-- A `Concept` record (`types.ts`). -/
structure TConcept : Type where
  id : String
  name : String
  children : List TNode
deriving DecidableEq

/-- `handleAddConcept`: trims the input value and, when truthy (i.e.
nonempty), appends a concept with id `` `${name}-${Date.now()}` ``. -/
def handleAddConcept (timeStr : Nat → String) (concepts : List TConcept)
    (rawName : String) (t : Nat) : List TConcept :=
  let name := String.mk (jsTrim rawName.toList)
  if name = "" then concepts
  else concepts ++ [{ id := name ++ "-" ++ timeStr t, name := name, children := [] }]

/-! ## JSON values and JavaScript dynamic operations

`parseJsonResponse` hands `extractCausalGraph` an arbitrary parsed JSON
value; the subsequent destructuring, truthiness checks, `forEach`/`map`
calls and `Map`/`Set` operations are dynamically typed.  `JVal` models the
parsed value, and the helpers below model the JavaScript operations the
source performs on it, including the `TypeError`s thrown when a property
is read from `null` or an array method is called on a non-array.  `Map`
and `Set` keys are compared structurally, which coincides with JavaScript
SameValueZero on the primitive (string) keys the schema produces. -/

/-- A parsed JSON value (`undefined` is represented by `Option.none`
at use sites, since `JSON.parse` never produces it). -/
inductive JVal : Type where
  | null : JVal
  | bool : Bool → JVal
  | num : Int → JVal
  | str : String → JVal
  | arr : List JVal → JVal
  | obj : List (String × JVal) → JVal

mutual

/-- Structural equality of JSON values (SameValueZero on primitives). -/
def jvalBeq : JVal → JVal → Bool
  | .null, .null => true
  | .bool a, .bool b => a == b
  | .num a, .num b => a == b
  | .str a, .str b => a == b
  | .arr xs, .arr ys => jvalListBeq xs ys
  | .obj xs, .obj ys => jfieldsBeq xs ys
  | _, _ => false

/-- Structural equality on lists of JSON values. -/
def jvalListBeq : List JVal → List JVal → Bool
  | [], [] => true
  | x :: xs, y :: ys => jvalBeq x y && jvalListBeq xs ys
  | _, _ => false

/-- Structural equality on object field lists. -/
def jfieldsBeq : List (String × JVal) → List (String × JVal) → Bool
  | [], [] => true
  | (k1, v1) :: xs, (k2, v2) :: ys => k1 == k2 && jvalBeq v1 v2 && jfieldsBeq xs ys
  | _, _ => false

end

/-- Equality on possibly-`undefined` JSON values. -/
def optJvalEqb : Option JVal → Option JVal → Bool
  | none, none => true
  | some a, some b => jvalBeq a b
  | _, _ => false

/-- JavaScript truthiness of a JSON value. -/
def truthy : JVal → Bool
  | .null => false
  | .bool b => b
  | .num n => n != 0
  | .str s => s != ""
  | .arr _ => true
  | .obj _ => true

/-- Truthiness test of a possibly-`undefined` value, negated (`!x`). -/
def falsyOpt : Option JVal → Bool
  | none => true
  | some v => !truthy v

/-- Property read on a non-`null` value: objects look the key up, any
other value yields `undefined`. -/
def fieldOf : JVal → String → Option JVal
  | .obj fs, k => (fs.find? (fun p => p.1 == k)).map (fun p => p.2)
  | _, _ => none

/-- Errors the dynamic phase of `extractCausalGraph` can throw: a
JavaScript `TypeError` (property read on `null`, array method on a
non-array), or the explicit
`Error('Failed to extract valid data from the text. ...')`. -/
inductive JsErr : Type where
  | typeError : JsErr
  | invalidData : JsErr
deriving DecidableEq

/-- Property read `v.k`: throws a `TypeError` on `null`. -/
def jsField (v : JVal) (k : String) : Except JsErr (Option JVal) :=
  match v with
  | .null => .error .typeError
  | v => .ok (fieldOf v k)

/-- Calling an array method (`forEach`, `map`, `filter`) on a value:
throws a `TypeError` unless the value is an array. -/
def asArr : Option JVal → Except JsErr (List JVal)
  | some (.arr xs) => .ok xs
  | _ => .error .typeError

/-- `Map.prototype.set`, observed through `get`: a function update.  A
stored `undefined` value is indistinguishable from an absent key via
`get`, which is the only observation the source makes. -/
def dynMapSet (m : Option JVal → Option JVal) (k v : Option JVal) :
    Option JVal → Option JVal :=
  fun x => if optJvalEqb x k then v else m x

/-- `variableToConceptMap.get(id) || 'Default'`. -/
def jsOrDefault (x : Option JVal) : JVal :=
  match x with
  | some v => if truthy v then v else .str "Default"
  | none => .str "Default"

mutual

/-- String conversion applied by a template literal (`String(v)`). -/
def jsDisplay : JVal → String
  | .null => "null"
  | .bool b => if b then "true" else "false"
  | .num n => if n < 0 then "-" ++ Nat.repr n.natAbs else Nat.repr n.natAbs
  | .str s => s
  | .obj _ => "[object Object]"
  | .arr xs => String.intercalate "," (jsDisplayElems xs)

/-- Element conversion of `Array.prototype.toString`: `null` becomes the
empty string. -/
def jsDisplayElems : List JVal → List String
  | [] => []
  | .null :: rest => "" :: jsDisplayElems rest
  | v :: rest => jsDisplay v :: jsDisplayElems rest

end

/-- Template-literal conversion of a possibly-`undefined` value. -/
def jsDisplayOpt : Option JVal → String
  | none => "undefined"
  | some v => jsDisplay v

/-! ## `extractCausalGraph`, dynamic phase (services/geminiService.ts)

```ts
const { nodes: responseNodes, links: responseLinks, concepts: responseConcepts } = extractionResponse;
if (!responseNodes || !responseLinks || !responseConcepts) {
  throw new Error("Failed to extract valid data from the text. The response format was incorrect.");
}
const variableToConceptMap = new Map<string, string>();
responseConcepts.forEach(concept => {
  concept.variables.forEach(variable => { variableToConceptMap.set(variable, concept.name); });
});
const nodes = responseNodes.map(node => ({
  id: node.id, isCore: node.isCore,
  group: variableToConceptMap.get(node.id) || 'Default',
}));
const nodeSet = new Set(nodes.map(n => n.id));
const links = responseLinks.filter(link => nodeSet.has(link.source) && nodeSet.has(link.target));
const nodeMap = new Map(nodes.map(node => [node.id, node]));
const concepts = responseConcepts.map((concept, index) => ({
    id: `${concept.name}-${index}`,
    name: concept.name,
    children: concept.variables.map(variableId => nodeMap.get(variableId))
      .filter((node): node is GraphNode => node !== undefined),
}));
return { graphData: { nodes, links }, concepts };
```

The `${index}` interpolation (JS number-to-string) is abstracted as
`numStr`, exactly like `Date.now()` formatting elsewhere. -/

/-- A node produced by the dynamic phase: `id` and `isCore` are whatever
the response held (possibly `undefined`), the group is the `Map` lookup
with the `'Default'` fallback. -/
structure DynNode : Type where
  id : Option JVal
  isCore : Option JVal
  group : JVal

/-- A concept produced by the dynamic phase. -/
structure DynConcept : Type where
  id : String
  name : Option JVal
  children : List DynNode

/-- The `{ graphData: { nodes, links }, concepts }` result; links are the
original response link values, filtered. -/
structure DynOut : Type where
  nodes : List DynNode
  links : List JVal
  concepts : List DynConcept

/-- The two nested `forEach` loops populating `variableToConceptMap`,
written in accumulator-passing style.  `concept.name` is read inside the
inner callback; reading it cannot throw once reading `concept.variables`
has not, so evaluating it once per concept is observationally equal. -/
def buildVarMap (cs : List JVal) (m : Option JVal → Option JVal) :
    Except JsErr (Option JVal → Option JVal) :=
  match cs with
  | [] => .ok m
  | c :: rest =>
    match jsField c "variables" with
    | .error e => .error e
    | .ok vars =>
      match asArr vars with
      | .error e => .error e
      | .ok vlist =>
        match jsField c "name" with
        | .error e => .error e
        | .ok nm =>
          buildVarMap rest (vlist.foldl (fun m v => dynMapSet m (some v) nm) m)

/-- `responseNodes.map(node => ({id, isCore, group}))`, elements in input
order. -/
def buildNodes (m : Option JVal → Option JVal) (ns : List JVal) :
    Except JsErr (List DynNode) :=
  match ns with
  | [] => .ok []
  | n :: rest =>
    match jsField n "id" with
    | .error e => .error e
    | .ok idv =>
      match jsField n "isCore" with
      | .error e => .error e
      | .ok icv =>
        match buildNodes m rest with
        | .error e => .error e
        | .ok out =>
          .ok ({ id := idv, isCore := icv, group := jsOrDefault (m idv) } :: out)

/-- `responseLinks.filter(link => nodeSet.has(link.source) && nodeSet.has(link.target))`.
`link.target` is read even when the first conjunct is false; that read
can only throw when `link` is `null`, in which case the `link.source`
read has already thrown, so the difference is unobservable. -/
def filterLinks (nodeIds : List (Option JVal)) :
    List JVal → Except JsErr (List JVal)
  | [] => .ok []
  | l :: rest =>
    match jsField l "source" with
    | .error e => .error e
    | .ok s =>
      match jsField l "target" with
      | .error e => .error e
      | .ok t =>
        match filterLinks nodeIds rest with
        | .error e => .error e
        | .ok out =>
          .ok (if nodeIds.any (fun x => optJvalEqb x s) &&
                  nodeIds.any (fun x => optJvalEqb x t)
               then l :: out else out)

/-- `new Map(nodes.map(node => [node.id, node]))`: later entries
overwrite earlier ones. -/
def buildNodeMap (nodes : List DynNode) : Option JVal → Option DynNode :=
  nodes.foldl (fun m n => fun x => if optJvalEqb x n.id then some n else m x)
    (fun _ => none)

/-- `responseConcepts.map((concept, index) => ...)` with the running
index made explicit. -/
def buildConceptsFrom (numStr : Nat → String)
    (nodeMap : Option JVal → Option DynNode) (i : Nat) (cs : List JVal) :
    Except JsErr (List DynConcept) :=
  match cs with
  | [] => .ok []
  | c :: rest =>
    match jsField c "name" with
    | .error e => .error e
    | .ok nm =>
      match jsField c "variables" with
      | .error e => .error e
      | .ok vars =>
        match asArr vars with
        | .error e => .error e
        | .ok vlist =>
          match buildConceptsFrom numStr nodeMap (i + 1) rest with
          | .error e => .error e
          | .ok out =>
            .ok ({ id := jsDisplayOpt nm ++ "-" ++ numStr i,
                   name := nm,
                   children := vlist.filterMap (fun v => nodeMap (some v)) } :: out)

/-- `responseConcepts.map((concept, index) => ...)`. -/
def buildConcepts (numStr : Nat → String)
    (nodeMap : Option JVal → Option DynNode) (cs : List JVal) :
    Except JsErr (List DynConcept) :=
  buildConceptsFrom numStr nodeMap 0 cs

/-- The dynamic phase of `extractCausalGraph`: everything between the
`parseJsonResponse` call and the `return`, with each `await`-free
JavaScript step that can throw written as an explicit `match`. -/
def extractCausalGraph (numStr : Nat → String) (resp : JVal) :
    Except JsErr DynOut :=
  match jsField resp "nodes" with
  | .error e => .error e
  | .ok nodesF =>
    match jsField resp "links" with
    | .error e => .error e
    | .ok linksF =>
      match jsField resp "concepts" with
      | .error e => .error e
      | .ok conceptsF =>
        if falsyOpt nodesF || falsyOpt linksF || falsyOpt conceptsF then
          .error .invalidData
        else
          match asArr conceptsF with
          | .error e => .error e
          | .ok cs =>
            match buildVarMap cs (fun _ => none) with
            | .error e => .error e
            | .ok m =>
              match asArr nodesF with
              | .error e => .error e
              | .ok ns =>
                match buildNodes m ns with
                | .error e => .error e
                | .ok nodes =>
                  match asArr linksF with
                  | .error e => .error e
                  | .ok ls =>
                    match filterLinks (nodes.map (fun n => n.id)) ls with
                    | .error e => .error e
                    | .ok links =>
                      match buildConcepts numStr (buildNodeMap nodes) cs with
                      | .error e => .error e
                      | .ok concepts =>
                        .ok { nodes := nodes, links := links, concepts := concepts }

/-! ## `extractCausalGraph` on schema-conforming responses

A typed view of the same computation, for responses that match the JSON
schema demanded by the extraction prompt (`nodes` an array of
`{id: string, isCore: boolean}` records, `links` an array of
`{source, target}` string pairs, `concepts` an array of
`{name: string, variables: string[]}` records). -/

/-- A schema-conforming response node. -/
structure RNode : Type where
  id : String
  isCore : Bool
deriving DecidableEq

/-- A schema-conforming response link. -/
structure RLink : Type where
  source : String
  target : String
deriving DecidableEq

/-- A schema-conforming response concept; `vars` models the `variables`
field of the schema (`variables` is a reserved word in Lean). -/
structure RConcept : Type where
  name : String
  vars : List String
deriving DecidableEq

/-- A schema-conforming model response. -/
structure RResponse : Type where
  nodes : List RNode
  links : List RLink
  concepts : List RConcept
deriving DecidableEq

/-- The typed result of `extractCausalGraph`. -/
structure WFOut : Type where
  nodes : List TNode
  links : List RLink
  concepts : List TConcept
deriving DecidableEq

/-- `variableToConceptMap` on a schema-conforming response. -/
def varMapWF (cs : List RConcept) : String → Option String :=
  cs.foldl
    (fun m c => c.vars.foldl
      (fun m v => fun x => if x = v then some c.name else m x) m)
    (fun _ => none)

/-- `variableToConceptMap.get(id) || 'Default'` on a schema-conforming
response: an empty concept name is falsy, so it also falls back. -/
def groupOfWF (m : String → Option String) (id : String) : String :=
  match m id with
  | some nm => if nm = "" then "Default" else nm
  | none => "Default"

/-- `nodeMap` on a schema-conforming response. -/
def nodeMapWF (nodes : List TNode) : String → Option TNode :=
  nodes.foldl (fun m n => fun x => if x = n.id then some n else m x)
    (fun _ => none)

/-- Modelled from the specification reading of the group assignment: the
last response concept whose variables list includes the given id. -/
def lastListing (cs : List RConcept) (x : String) : Option RConcept :=
  cs.reverse.find? (fun c => c.vars.contains x)

/-- Specification-level group of a node id: the name of the last listing
concept, with the `'Default'` fallback when none lists it or that name is
empty (an empty name is falsy under `|| 'Default'`). -/
def groupSpec (cs : List RConcept) (x : String) : String :=
  match lastListing cs x with
  | some c => if c.name = "" then "Default" else c.name
  | none => "Default"

/-- The `nodes` array built from a schema-conforming response. -/
def wfNodes (r : RResponse) : List TNode :=
  r.nodes.map
    (fun n => { id := n.id, isCore := n.isCore,
                group := groupOfWF (varMapWF r.concepts) n.id })

/-- The filtered `links` array built from a schema-conforming response. -/
def wfLinks (r : RResponse) : List RLink :=
  r.links.filter
    (fun l => ((wfNodes r).map (fun n => n.id)).contains l.source &&
              ((wfNodes r).map (fun n => n.id)).contains l.target)

/-- The `concepts` array built from a schema-conforming response. -/
def wfConcepts (numStr : Nat → String) (r : RResponse) : List TConcept :=
  r.concepts.enum.map
    (fun p => { id := p.2.name ++ "-" ++ numStr p.1, name := p.2.name,
                children := p.2.vars.filterMap (fun v => nodeMapWF (wfNodes r) v) })

/-- The typed view of `extractCausalGraph`. -/
def extractCausalGraphWF (numStr : Nat → String) (r : RResponse) : WFOut :=
  { nodes := wfNodes r, links := wfLinks r, concepts := wfConcepts numStr r }

/-- Embedding of a schema-conforming node into a JSON value. -/
def encodeNode (n : RNode) : JVal :=
  .obj [("id", .str n.id), ("isCore", .bool n.isCore)]

/-- Embedding of a schema-conforming link into a JSON value. -/
def encodeLink (l : RLink) : JVal :=
  .obj [("source", .str l.source), ("target", .str l.target)]

/-- Embedding of a schema-conforming concept into a JSON value. -/
def encodeConcept (c : RConcept) : JVal :=
  .obj [("name", .str c.name), ("variables", .arr (c.vars.map JVal.str))]

/-- Embedding of a schema-conforming response into a JSON value. -/
def encodeResp (r : RResponse) : JVal :=
  .obj [("nodes", .arr (r.nodes.map encodeNode)),
        ("links", .arr (r.links.map encodeLink)),
        ("concepts", .arr (r.concepts.map encodeConcept))]

/-- Embedding of a typed output node into a dynamic output node. -/
def encodeTNode (n : TNode) : DynNode :=
  { id := some (.str n.id), isCore := some (.bool n.isCore), group := .str n.group }

/-- Embedding of a typed output concept into a dynamic output concept. -/
def encodeTConcept (c : TConcept) : DynConcept :=
  { id := c.id, name := some (.str c.name), children := c.children.map encodeTNode }

/-- Embedding of the typed output into the dynamic output. -/
def encodeOut (w : WFOut) : DynOut :=
  { nodes := w.nodes.map encodeTNode,
    links := w.links.map encodeLink,
    concepts := w.concepts.map encodeTConcept }

/-! ## `generateTopicSuggestions`, validation phase

```ts
const topics: TopicSuggestion[] = parseJsonResponse(suggestionResult.text);
if (!topics || !Array.isArray(topics) || topics.length === 0) {
  throw new Error("Failed to generate valid topic suggestions.");
}
return topics;
```
-/

/-- `Array.isArray`. -/
def isArrayJ : JVal → Bool
  | .arr _ => true
  | _ => false

/-- Elements of an array value (unused branches return `[]`; the guard
only reads the length after `Array.isArray` has passed). -/
def jArrayElems : JVal → List JVal
  | .arr xs => xs
  | _ => []

/-- The validation phase of `generateTopicSuggestions`: everything
between the `parseJsonResponse` call and the `return`. -/
def generateTopicSuggestionsCheck (resp : JVal) : Except String (List JVal) :=
  if !truthy resp || !isArrayJ resp || (jArrayElems resp).length == 0 then
    .error "Failed to generate valid topic suggestions."
  else .ok (jArrayElems resp)

/-! # Theorems -/

/-! ## Helper lemmas -/

/-- Folding `acc + f t` distributes over the initial accumulator. -/
theorem foldl_add_init (f : String → Nat) (l : List String) (a : Nat) :
    l.foldl (fun acc t => acc + f t) a = a + l.foldl (fun acc t => acc + f t) 0 := by
  induction l generalizing a with
  | nil => simp
  | cons t ts ih =>
    simp only [List.foldl_cons]
    rw [ih, ih (0 + f t)]
    omega

/-- `latinTotal` over a cons. -/
theorem latinTotal_cons (t : String) (ts : List String) :
    latinTotal (t :: ts) = latinCount t + latinTotal ts := by
  simp only [latinTotal, List.foldl_cons]
  rw [foldl_add_init]
  omega

/-- `cjkTotal` over a cons. -/
theorem cjkTotal_cons (t : String) (ts : List String) :
    cjkTotal (t :: ts) = cjkCount t + cjkTotal ts := by
  simp only [cjkTotal, List.foldl_cons]
  rw [foldl_add_init]
  omega

/-- The paired counter loop of `detectDominantLanguage` computes the two
totals. -/
theorem detect_fold_eq (texts : List String) (a b : Nat) :
    texts.foldl
      (fun (p : Nat × Nat) t =>
        if t = "" then p else (p.1 + latinCount t, p.2 + cjkCount t)) (a, b)
    = (a + latinTotal texts, b + cjkTotal texts) := by
  induction texts generalizing a b with
  | nil => simp [latinTotal, cjkTotal]
  | cons t ts ih =>
    simp only [List.foldl_cons, latinTotal_cons, cjkTotal_cons]
    by_cases h : t = ""
    · have hl : latinCount t = 0 := by subst h; rfl
      have hc : cjkCount t = 0 := by subst h; rfl
      rw [if_pos h, ih]
      simp only [Prod.mk.injEq]
      omega
    · rw [if_neg h, ih]
      simp only [Prod.mk.injEq]
      omega

/-! ## Claim C10 -/

/-- Claim C10: `detectDominantLanguage` returns `en` whenever the combined
count of Latin letters and CJK characters over all texts is below 100;
otherwise it returns `zh` exactly when the CJK count strictly exceeds the
Latin count, and `en` on ties; it is total (a Lean function) and defined
on empty lists and empty strings. -/
theorem detectDominantLanguage_spec (texts : List String) :
    (latinTotal texts + cjkTotal texts < 100 →
      detectDominantLanguage texts = .en) ∧
    (100 ≤ latinTotal texts + cjkTotal texts →
      (detectDominantLanguage texts = .zh ↔ latinTotal texts < cjkTotal texts) ∧
      (cjkTotal texts ≤ latinTotal texts → detectDominantLanguage texts = .en)) := by
  unfold detectDominantLanguage
  rw [detect_fold_eq texts 0 0]
  simp only [Nat.zero_add]
  refine ⟨fun h => by rw [if_pos h], fun h => ⟨?_, fun hle => ?_⟩⟩
  · rw [if_neg (by omega)]
    constructor
    · intro heq
      by_cases hlt : latinTotal texts < cjkTotal texts
      · exact hlt
      · rw [if_neg hlt] at heq; cases heq
    · intro hlt; rw [if_pos hlt]
  · rw [if_neg (by omega), if_neg (by omega)]

/-- Witness for C10 at concrete inputs: a short text defaults to English,
and 101 CJK characters select Chinese. -/
theorem detectDominantLanguage_spec_witness :
    detectDominantLanguage ["abc"] = .en ∧
    detectDominantLanguage [String.mk (List.replicate 101 '中')] = .zh := by
  constructor
  · exact (detectDominantLanguage_spec ["abc"]).1 (by decide)
  · exact ((detectDominantLanguage_spec
      [String.mk (List.replicate 101 '中')]).2 (by decide)).1.mpr (by decide)

/-! ## Claim C2 -/

/-- Claim C2: for every input, `parseJsonResponse` returns the direct
`JSON.parse` result when the input is valid JSON; otherwise, when the
input contains a ```` ```json ... ``` ```` markdown block (in the sense of
the source's regex) whose inner content is valid JSON, it returns the
parse of that inner content; otherwise it throws, never returning a value
for input unparseable both directly and after unfencing.  The hypothesis
`jparse "" = none` records that `JSON.parse` rejects the empty string. -/
theorem parseJsonResponse_spec {α : Type} (jparse : String → Option α)
    (rawText : String) (hempty : jparse "" = none) :
    (∀ v, jparse rawText = some v → parseJsonResponse jparse rawText = .ok v) ∧
    (jparse rawText = none →
      ∀ cap v, extractFenced rawText.toList = some cap →
        jparse (String.mk cap) = some v →
        parseJsonResponse jparse rawText = .ok v) ∧
    ((jparse rawText = none ∧
      ∀ cap, extractFenced rawText.toList = some cap →
        jparse (String.mk cap) = none) →
      parseJsonResponse jparse rawText = .error cleanErrMsg) := by
  refine ⟨?_, ?_, ?_⟩
  · intro v hv
    simp [parseJsonResponse, hv]
  · intro h0 cap v hcap hv
    have hne : cap ≠ [] := by
      intro h
      subst h
      rw [show String.mk ([] : List Char) = "" from rfl, hempty] at hv
      cases hv
    have hcap' : extractFenced rawText.data = some cap := hcap
    simp [parseJsonResponse, h0, hcap', hne, hv]
  · rintro ⟨h0, hall⟩
    unfold parseJsonResponse
    rw [h0]
    cases hcap : extractFenced rawText.toList with
    | none => rfl
    | some cap =>
      have hc := hall cap hcap
      by_cases hne : cap = [] <;> simp [hne, hc]

/-- Witness for C2: with a parser accepting exactly the string "1", the
raw text is invalid but its fenced block parses, and the fenced value is
returned. -/
theorem parseJsonResponse_spec_witness :
    parseJsonResponse (fun s => if s = "1" then some 1 else none)
      "x \x60\x60\x60json 1\x60\x60\x60 y" = .ok 1 :=
  (parseJsonResponse_spec (fun s => if s = "1" then some 1 else none)
      "x \x60\x60\x60json 1\x60\x60\x60 y" (by decide)).2.1
    (by decide) ['1'] 1 (by decide) (by decide)

/-! ## Claim C3 -/

/-- `handlerCore` succeeds exactly when the request body parses, the API
key is a nonempty string, the upstream fetch resolves with an ok response,
and its JSON body parses. -/
theorem handlerCore_ok_iff {α : Type} (env : ProxyEnv α) (d : α) :
    handlerCore env = .ok d ↔
      ((∃ p, env.body = .ok p) ∧ env.apiKey.getD "" ≠ "" ∧
        ∃ resp, env.fetch = .ok resp ∧ resp.ok = true ∧ resp.json = .ok d) := by
  unfold handlerCore
  cases hb : env.body with
  | error m => simp [hb]
  | ok p =>
    by_cases hk : env.apiKey.getD "" = ""
    · simp [hk]
    · rw [if_neg hk]
      cases hf : env.fetch with
      | error m => simp [hk]
      | ok resp =>
        cases ho : resp.ok with
        | true => simp [hk, ho]
        | false =>
          cases ht : resp.text with
          | error m => simp [hk, ho, ht]
          | ok errText => simp [hk, ho, ht]

/-- Claim C3: for every invocation environment, the proxy handler returns
status 200 with the upstream JSON body exactly when the request body
parses, the API key is set, the fetch resolves ok, and the upstream body
parses as JSON; in every other case it returns status 500 with an
`{"error": message}` body; it never returns another status and, being a
total function of its environment, never throws out of the handler. -/
theorem handler_spec {α : Type} (env : ProxyEnv α) :
    ((handler env).1 = 200 ∨ (handler env).1 = 500) ∧
    ((handler env).1 = 200 ↔
      ((∃ p, env.body = .ok p) ∧ env.apiKey.getD "" ≠ "" ∧
        ∃ resp, env.fetch = .ok resp ∧ resp.ok = true ∧
          ∃ d, resp.json = .ok d)) ∧
    ((handler env).1 = 200 →
      ∃ resp d, env.fetch = .ok resp ∧ resp.json = .ok d ∧
        (handler env).2 = .data d) ∧
    ((handler env).1 = 500 → ∃ m, (handler env).2 = .error m) := by
  unfold handler
  cases hc : handlerCore env with
  | ok d =>
    have h := (handlerCore_ok_iff env d).mp hc
    refine ⟨Or.inl rfl, ?_, ?_, ?_⟩
    · simp only [true_iff]
      exact ⟨h.1, h.2.1, h.2.2.choose, h.2.2.choose_spec.1, h.2.2.choose_spec.2.1,
        d, h.2.2.choose_spec.2.2⟩
    · intro _
      exact ⟨h.2.2.choose, d, h.2.2.choose_spec.1, h.2.2.choose_spec.2.2, rfl⟩
    · intro habs
      cases habs
  | error m =>
    refine ⟨Or.inr rfl, ?_, ?_, ?_⟩
    · simp only [show (500 : Nat) ≠ 200 from by decide, false_iff]
      rintro ⟨⟨p, hp⟩, hk, resp, hresp, hok, d, hd⟩
      have : handlerCore env = .ok d := by
        exact (handlerCore_ok_iff env d).mpr ⟨⟨p, hp⟩, hk, resp, hresp, hok, hd⟩
      rw [hc] at this
      cases this
    · intro habs
      cases habs
    · intro _
      exact ⟨_, rfl⟩

/-- Witness for C3 (the iff direction at a concrete success environment):
with a parsed body, a set key and an ok upstream response, the handler
returns 200 with the upstream data. -/
theorem handler_spec_witness :
    (handler (α := Nat)
      { body := .ok (some "hi"), apiKey := some "k",
        fetch := .ok { ok := true, status := 200, text := .ok "", json := .ok 7 } }).1
      = 200 :=
  (handler_spec (α := Nat)
      { body := .ok (some "hi"), apiKey := some "k",
        fetch := .ok { ok := true, status := 200, text := .ok "", json := .ok 7 } }).2.1.mpr
    ⟨⟨some "hi", rfl⟩, by decide, _, rfl, rfl, 7, rfl⟩

/-! ## Claims C1 and C4 -/

/-- `extractContentT` on the `text/plain` branch. -/
theorem extractContentT_text (f : FileModel) (h : f.type = "text/plain") :
    extractContentT f = (withTimeout f.textResult "操作超时", [(.text, PARSING_TIMEOUT)]) := by
  unfold extractContentT
  rw [if_pos h]

/-- `extractContentT` on the DOCX branch. -/
theorem extractContentT_docx (f : FileModel) (h1 : ¬ f.type = "text/plain")
    (h2 : (f.type = docxMime || jsEndsWith f.name ".docx") = true) :
    extractContentT f = (withTimeout f.docxResult "操作超时", [(.docx, PARSING_TIMEOUT)]) := by
  unfold extractContentT
  rw [if_neg h1, if_pos h2]

/-- `extractContentT` on the PDF branch. -/
theorem extractContentT_pdf (f : FileModel) (h1 : ¬ f.type = "text/plain")
    (h2 : (f.type = docxMime || jsEndsWith f.name ".docx") = false)
    (h3 : f.type = "application/pdf") :
    extractContentT f =
      match withTimeout f.pdfTextResult "初步文本提取超时。" with
      | .error m => (.error m, [(.pdfText, PARSING_TIMEOUT)])
      | .ok textContent =>
        if utf16Len (jsTrim textContent.toList) < 100 then
          (withTimeout f.ocrResult "OCR处理超时。文件可能过于复杂。",
           [(.pdfText, PARSING_TIMEOUT), (.ocr, OCR_TIMEOUT)])
        else (.ok textContent, [(.pdfText, PARSING_TIMEOUT)]) := by
  unfold extractContentT
  rw [if_neg h1, if_neg (by simp [h2]), if_pos h3]

/-- `extractContentT` on the unsupported-type branch. -/
theorem extractContentT_other (f : FileModel) (h1 : ¬ f.type = "text/plain")
    (h2 : (f.type = docxMime || jsEndsWith f.name ".docx") = false)
    (h3 : ¬ f.type = "application/pdf") :
    extractContentT f =
      (.error ("不支持的文件类型: " ++ (if f.type = "" then "未知" else f.type)), []) := by
  unfold extractContentT
  rw [if_neg h1, if_neg (by simp [h2]), if_neg h3]

/-- The trimmed UTF-16 length of the empty string is zero. -/
theorem utf16Len_jsTrim_empty : utf16Len (jsTrim "".toList) = 0 := rfl

/-- `processFile` when extraction produced content. -/
theorem processFile_ok (f : FileModel) (c : String)
    (h : (extractContentT f).1 = .ok c) :
    processFile f =
      if c = "" || utf16Len (jsTrim c.toList) < 100 then
        .error "未能提取有效文本。文件可能是扫描图像、空文件或已损坏。"
      else .ready c := by
  unfold processFile
  rw [h]

/-- `processFile` when extraction threw. -/
theorem processFile_err (f : FileModel) (m : String)
    (h : (extractContentT f).1 = .error m) :
    processFile f = .error (if m = "" then "解析失败" else m) := by
  unfold processFile
  rw [h]

/-- Claim C1: for a file processed on the PDF branch, OCR is invoked if
and only if direct text extraction resolves with a string of trimmed
length below 100; when the directly extracted text has trimmed length at
least 100, that text becomes the paper's content and OCR is never
invoked.  (The second hypothesis excludes names ending in `.docx`, which
the source diverts to the DOCX branch before the MIME type is consulted.) -/
theorem pdf_ocr_iff (f : FileModel)
    (hpdf : f.type = "application/pdf")
    (hdocx : jsEndsWith f.name ".docx" = false) :
    (AttemptKind.ocr ∈ (extractContentT f).2.map Prod.fst ↔
      ∃ t, f.pdfTextResult = .ok t ∧ utf16Len (jsTrim t.toList) < 100) ∧
    (∀ t, f.pdfTextResult = .ok t → 100 ≤ utf16Len (jsTrim t.toList) →
      processFile f = .ready t ∧
      AttemptKind.ocr ∉ (extractContentT f).2.map Prod.fst) := by
  have h1 : ¬ f.type = "text/plain" := by rw [hpdf]; decide
  have h2 : (f.type = docxMime || jsEndsWith f.name ".docx") = false := by
    rw [hpdf, hdocx]; decide
  have he := extractContentT_pdf f h1 h2 hpdf
  cases hr : f.pdfTextResult with
  | ok t =>
    rw [hr] at he
    simp only [withTimeout] at he
    by_cases hshort : utf16Len (jsTrim t.toList) < 100
    · rw [if_pos hshort] at he
      constructor
      · rw [he]
        simp only [List.map_cons, List.map_nil]
        constructor
        · intro _; exact ⟨t, rfl, hshort⟩
        · intro _; simp
      · intro t' ht' hlong
        rw [show t' = t from by injection ht' with hh; exact hh.symm] at hlong
        omega
    · rw [if_neg hshort] at he
      constructor
      · rw [he]
        simp only [List.map_cons, List.map_nil]
        constructor
        · intro hmem; simp at hmem
        · rintro ⟨t', ht', hshort'⟩
          rw [show t' = t from by injection ht' with hh; exact hh.symm] at hshort'
          omega
      · intro t' ht' _
        have htt : t = t' := by injection ht'
        subst htt
        constructor
        · have he1 : (extractContentT f).1 = Except.ok t := by rw [he]
          have hne : ¬ t = "" := by
            intro hemp
            rw [hemp] at hshort
            exact hshort (by rw [utf16Len_jsTrim_empty]; omega)
          rw [processFile_ok f t he1,
            if_neg (by simp [hne]; exact Nat.le_of_not_lt hshort)]
        · rw [he]; simp
  | err m =>
    rw [hr] at he
    simp only [withTimeout] at he
    refine ⟨?_, ?_⟩
    · rw [he]
      simp only [List.map_cons, List.map_nil]
      constructor
      · intro hmem; simp at hmem
      · rintro ⟨t', ht', _⟩; cases ht'
    · intro t' ht'; cases ht'
  | timeout =>
    rw [hr] at he
    simp only [withTimeout] at he
    refine ⟨?_, ?_⟩
    · rw [he]
      simp only [List.map_cons, List.map_nil]
      constructor
      · intro hmem; simp at hmem
      · rintro ⟨t', ht', _⟩; cases ht'
    · intro t' ht'; cases ht'

/-- Witness for C1: a PDF whose direct extraction yields 100 characters
is marked ready with that text and OCR is skipped. -/
theorem pdf_ocr_iff_witness :
    processFile
      { name := "a.pdf", type := "application/pdf", textResult := .timeout,
        docxResult := .timeout,
        pdfTextResult := .ok (String.mk (List.replicate 100 'a')),
        ocrResult := .timeout }
      = .ready (String.mk (List.replicate 100 'a')) :=
  ((pdf_ocr_iff
      { name := "a.pdf", type := "application/pdf", textResult := .timeout,
        docxResult := .timeout,
        pdfTextResult := .ok (String.mk (List.replicate 100 'a')),
        ocrResult := .timeout } rfl (by decide)).2
    (String.mk (List.replicate 100 'a')) rfl (by decide)).1

/-- Appending to a nonempty string is nonempty. -/
theorem str_append_ne_empty (s t : String) (h : s ≠ "") : s ++ t ≠ "" := by
  intro he
  apply h
  have hd : s.data ++ t.data = [] := by
    have hc := congrArg String.data he
    rwa [String.data_append] at hc
  cases s with
  | mk d =>
    have h0 : d = [] := (List.append_eq_nil.mp hd).1
    subst h0
    rfl

/-- Claim C4: every failure mode of a `handleFileChange` iteration — an
unsupported declared type, a parse or OCR timeout, or final content with
trimmed length below 100 — ends the paper in status `error` with the
corresponding human-readable message (the model is a total function, so
no exception escapes the loop); and a paper reaches status `ready` with
content `c` if and only if extraction succeeded with `c` of trimmed
length at least 100. -/
theorem handleFile_errors (f : FileModel) :
    (¬ f.type = "text/plain" →
      (f.type = docxMime || jsEndsWith f.name ".docx") = false →
      ¬ f.type = "application/pdf" →
      processFile f =
        .error ("不支持的文件类型: " ++ (if f.type = "" then "未知" else f.type))) ∧
    (f.type = "text/plain" → f.textResult = .timeout →
      processFile f = .error "操作超时") ∧
    (¬ f.type = "text/plain" →
      (f.type = docxMime || jsEndsWith f.name ".docx") = true →
      f.docxResult = .timeout → processFile f = .error "操作超时") ∧
    (¬ f.type = "text/plain" →
      (f.type = docxMime || jsEndsWith f.name ".docx") = false →
      f.type = "application/pdf" → f.pdfTextResult = .timeout →
      processFile f = .error "初步文本提取超时。") ∧
    (¬ f.type = "text/plain" →
      (f.type = docxMime || jsEndsWith f.name ".docx") = false →
      f.type = "application/pdf" →
      ∀ t, f.pdfTextResult = .ok t → utf16Len (jsTrim t.toList) < 100 →
        f.ocrResult = .timeout →
        processFile f = .error "OCR处理超时。文件可能过于复杂。") ∧
    (∀ c, (extractContentT f).1 = .ok c → utf16Len (jsTrim c.toList) < 100 →
      processFile f =
        .error "未能提取有效文本。文件可能是扫描图像、空文件或已损坏。") ∧
    (∀ c, processFile f = .ready c ↔
      ((extractContentT f).1 = .ok c ∧ 100 ≤ utf16Len (jsTrim c.toList))) := by
  refine ⟨?_, ?_, ?_, ?_, ?_, ?_, ?_⟩
  · intro h1 h2 h3
    have he := extractContentT_other f h1 h2 h3
    have he1 : (extractContentT f).1
        = .error ("不支持的文件类型: " ++ (if f.type = "" then "未知" else f.type)) := by
      rw [he]
    rw [processFile_err f _ he1,
      if_neg (str_append_ne_empty _ _ (by decide))]
  · intro h1 h2
    have he := extractContentT_text f h1
    rw [h2] at he
    have he1 : (extractContentT f).1 = .error "操作超时" := by rw [he]; rfl
    rw [processFile_err f _ he1, if_neg (by decide)]
  · intro h1 h2 h3
    have he := extractContentT_docx f h1 h2
    rw [h3] at he
    have he1 : (extractContentT f).1 = .error "操作超时" := by rw [he]; rfl
    rw [processFile_err f _ he1, if_neg (by decide)]
  · intro h1 h2 h3 h4
    have he := extractContentT_pdf f h1 h2 h3
    rw [h4] at he
    simp only [withTimeout] at he
    have he1 : (extractContentT f).1 = .error "初步文本提取超时。" := by rw [he]
    rw [processFile_err f _ he1, if_neg (by decide)]
  · intro h1 h2 h3 t ht hshort hocr
    have he := extractContentT_pdf f h1 h2 h3
    rw [ht] at he
    simp only [withTimeout] at he
    rw [if_pos hshort, hocr] at he
    have he1 : (extractContentT f).1 = .error "OCR处理超时。文件可能过于复杂。" := by
      rw [he]
    rw [processFile_err f _ he1, if_neg (by decide)]
  · intro c hc hshort
    rw [processFile_ok f c hc,
      if_pos (by simp only [Bool.or_eq_true, decide_eq_true_eq]; exact Or.inr hshort)]
  · intro c
    cases hc : (extractContentT f).1 with
    | ok c' =>
      rw [processFile_ok f c' hc]
      by_cases hcond : (c' = "" || utf16Len (jsTrim c'.toList) < 100 : Bool) = true
      · rw [if_pos hcond]
        constructor
        · intro habs; cases habs
        · rintro ⟨hok, hlen⟩
          have hcc : c' = c := by injection hok
          subst hcc
          rcases Bool.or_eq_true_iff.mp hcond with hemp | hshort
          · have : c' = "" := by simpa using hemp
            rw [this] at hlen
            rw [utf16Len_jsTrim_empty] at hlen
            omega
          · have : utf16Len (jsTrim c'.toList) < 100 := by simpa using hshort
            omega
      · rw [if_neg hcond]
        have hlong : 100 ≤ utf16Len (jsTrim c'.toList) := by
          rcases Bool.or_eq_false_iff.mp (Bool.not_eq_true _ |>.mp hcond) with ⟨_, hs⟩
          have := of_decide_eq_false hs
          omega
        constructor
        · intro hready
          have hcc : c' = c := by injection hready
          subst hcc
          exact ⟨rfl, hlong⟩
        · rintro ⟨hok, _⟩
          have hcc : c' = c := by injection hok
          rw [hcc]
    | error m =>
      rw [processFile_err f m hc]
      constructor
      · intro habs; cases habs
      · rintro ⟨hok, _⟩; cases hok

/-- Witness for C4: an unsupported image upload is marked `error` with
the unsupported-type message. -/
theorem handleFile_errors_witness :
    processFile
      { name := "a.png", type := "image/png", textResult := .timeout,
        docxResult := .timeout, pdfTextResult := .timeout, ocrResult := .timeout }
      = .error "不支持的文件类型: image/png" := by
  have h := (handleFile_errors
    { name := "a.png", type := "image/png", textResult := .timeout,
      docxResult := .timeout, pdfTextResult := .timeout,
      ocrResult := .timeout }).1 (by decide) (by decide) (by decide)
  rw [h]
  decide

/-! ## Claim C9 -/

/-- Claim C9, amended: for a prior papers list that itself respects the
100-entry cap, `handleFileChange` accepts at most `100 - papers.length`
files, so the cap is preserved, and at exactly 100 papers nothing is
accepted.  (For prior lengths above 100 the unamended claim fails: JS
`slice(0, negative)` counts from the end, see the counterexample.) -/
theorem papers_cap (files : List FileModel) (papersLen : Nat)
    (h : papersLen ≤ 100) :
    (acceptedFiles files papersLen).length ≤ 100 - papersLen ∧
    papersLen + (acceptedFiles files papersLen).length ≤ 100 ∧
    (papersLen = 100 → acceptedFiles files papersLen = []) := by
  unfold acceptedFiles jsSlice0
  rw [if_neg (by omega)]
  have ht : ((100 : Int) - (papersLen : Int)).toNat = 100 - papersLen := by omega
  rw [ht]
  refine ⟨?_, ?_, ?_⟩
  · simp only [List.length_take]
    omega
  · simp only [List.length_take]
    omega
  · intro h100
    rw [h100]
    simp

/-- Witness for C9: at exactly 100 prior papers a one-file upload is
ignored. -/
theorem papers_cap_witness :
    acceptedFiles
      [{ name := "a", type := "", textResult := .timeout, docxResult := .timeout,
         pdfTextResult := .timeout, ocrResult := .timeout }] 100 = [] :=
  (papers_cap
    [{ name := "a", type := "", textResult := .timeout, docxResult := .timeout,
       pdfTextResult := .timeout, ocrResult := .timeout }] 100 (by decide)).2.2 rfl

/-- Counterexample to C9 as stated: with 101 prior papers (a state the
claim quantifies over) and two uploaded files, `slice(0, 100 - 101)` is
`slice(0, -1)`, which keeps all but the last file, so one paper is still
added even though the list already holds 100 or more. -/
theorem papers_cap_cex :
    100 ≤ 101 ∧
    (acceptedFiles
      [{ name := "a", type := "", textResult := .timeout, docxResult := .timeout,
         pdfTextResult := .timeout, ocrResult := .timeout },
       { name := "b", type := "", textResult := .timeout, docxResult := .timeout,
         pdfTextResult := .timeout, ocrResult := .timeout }] 101).length = 1 := by
  constructor
  · decide
  · rfl

/-! ## Claim C5 -/

/-- Two decompositions around a separator agree when the separator does
not occur in the front parts. -/
theorem append_sep_inj :
    ∀ (xs1 xs2 ys1 ys2 : List Char), '-' ∉ xs1 → '-' ∉ xs2 →
      xs1 ++ '-' :: ys1 = xs2 ++ '-' :: ys2 → xs1 = xs2 ∧ ys1 = ys2 := by
  intro xs1
  induction xs1 with
  | nil =>
    intro xs2 ys1 ys2 _ h2 heq
    cases xs2 with
    | nil => simpa using heq
    | cons d ds =>
      exfalso
      simp only [List.nil_append, List.cons_append, List.cons.injEq] at heq
      apply h2
      rw [← heq.1]
      exact List.mem_cons_self _ _
  | cons c cs ih =>
    intro xs2 ys1 ys2 h1 h2 heq
    cases xs2 with
    | nil =>
      exfalso
      simp only [List.nil_append, List.cons_append, List.cons.injEq] at heq
      apply h1
      rw [heq.1]
      exact List.mem_cons_self _ _
    | cons d ds =>
      simp only [List.cons_append, List.cons.injEq] at heq
      obtain ⟨hcd, hrest⟩ := heq
      obtain ⟨hxs, hys⟩ := ih ds ys1 ys2
        (fun hm => h1 (List.mem_cons_of_mem _ hm))
        (fun hm => h2 (List.mem_cons_of_mem _ hm)) hrest
      exact ⟨by rw [hcd, hxs], hys⟩

/-- Ids of the shape `name ++ "-" ++ fmt t` are injective in the
(name, t) pair when the formatter is injective and produces no dash. -/
theorem id_inj (fmt : Nat → String)
    (hinj : ∀ a b, fmt a = fmt b → a = b)
    (hdash : ∀ t, '-' ∉ (fmt t).data)
    (n1 n2 : String) (t1 t2 : Nat)
    (heq : n1 ++ "-" ++ fmt t1 = n2 ++ "-" ++ fmt t2) :
    n1 = n2 ∧ t1 = t2 := by
  have hd : n1.data ++ '-' :: (fmt t1).data
      = n2.data ++ '-' :: (fmt t2).data := by
    have hc := congrArg String.data heq
    have hlit : ("-" : String).data = ['-'] := rfl
    simpa [String.data_append, hlit, List.append_assoc] using hc
  have hr := congrArg List.reverse hd
  simp only [List.reverse_append, List.reverse_cons, List.append_assoc,
    List.singleton_append] at hr
  obtain ⟨hT, hN⟩ := append_sep_inj _ _ _ _
    (fun hm => hdash t1 (List.mem_reverse.mp hm))
    (fun hm => hdash t2 (List.mem_reverse.mp hm)) hr
  have hT2 : (fmt t1).data = (fmt t2).data := by
    have hrr := congrArg List.reverse hT
    simpa using hrr
  have hN2 : n1.data = n2.data := by
    have hrr := congrArg List.reverse hN
    simpa using hrr
  exact ⟨String.ext hN2, hinj _ _ (String.ext hT2)⟩

/-- The batch ids are the id function mapped over the name/tick pairs. -/
theorem newPaperIds_eq_map (fmt : Nat → String) (files : List FileModel)
    (clock : Nat → Nat) :
    newPaperIds fmt files clock
      = (namesAndTicks files clock).map (fun q => q.1 ++ "-" ++ fmt q.2) := by
  unfold newPaperIds namesAndTicks
  rw [List.map_map]
  rfl

/-- Claim C5, amended: identifier uniqueness holds conditionally.  Paper
ids of one batch are pairwise distinct if and only if no two accepted
files share both their name and their `Date.now()` reading (two files
with the same name get the same id when the clock does not advance
between the two id computations — see the counterexample).  The node
list of `extractCausalGraph` carries exactly the response's node ids, so
it is duplicate-free iff the response's ids are.  Concept ids built by
`extractCausalGraph` (`name-index`) are always pairwise distinct, and
`handleAddConcept` preserves concept-id uniqueness whenever the new
`name-Date.now()` id is fresh.  `fmt` abstracts JS number-to-string
conversion: injective and dash-free, as decimal notation is. -/
theorem ids_unique_amended (fmt : Nat → String)
    (hinj : ∀ a b, fmt a = fmt b → a = b)
    (hdash : ∀ t, '-' ∉ (fmt t).data)
    (files : List FileModel) (clock : Nat → Nat) (r : RResponse)
    (concepts : List TConcept) (rawName : String) (t : Nat) :
    ((newPaperIds fmt files clock).Nodup ↔ (namesAndTicks files clock).Nodup) ∧
    ((extractCausalGraphWF fmt r).nodes.map TNode.id = r.nodes.map RNode.id) ∧
    (((extractCausalGraphWF fmt r).concepts.map TConcept.id).Nodup) ∧
    ((concepts.map TConcept.id).Nodup →
      (∀ c ∈ concepts, c.id ≠ String.mk (jsTrim rawName.toList) ++ "-" ++ fmt t) →
      ((handleAddConcept fmt concepts rawName t).map TConcept.id).Nodup) := by
  have hfun : Function.Injective (fun q : String × Nat => q.1 ++ "-" ++ fmt q.2) := by
    intro q1 q2 h
    obtain ⟨hn, ht⟩ := id_inj fmt hinj hdash q1.1 q2.1 q1.2 q2.2 h
    exact Prod.ext hn ht
  refine ⟨?_, ?_, ?_, ?_⟩
  · rw [newPaperIds_eq_map]
    exact List.nodup_map_iff hfun
  · show (wfNodes r).map TNode.id = r.nodes.map RNode.id
    unfold wfNodes
    rw [List.map_map]
    rfl
  · show ((wfConcepts fmt r).map TConcept.id).Nodup
    have hids : (wfConcepts fmt r).map TConcept.id
        = (r.concepts.enum.map (fun p => (p.2.name, p.1))).map
            (fun q => q.1 ++ "-" ++ fmt q.2) := by
      unfold wfConcepts
      rw [List.map_map, List.map_map]
      rfl
    rw [hids]
    apply List.Nodup.map hfun
    apply List.Nodup.of_map Prod.snd
    have hsnd : ((r.concepts.enum.map (fun p => (p.2.name, p.1))).map Prod.snd)
        = r.concepts.enum.map Prod.fst := by
      rw [List.map_map]
      rfl
    rw [hsnd]
    exact List.nodup_enum_map_fst _
  · intro hnd hfresh
    unfold handleAddConcept
    by_cases hname : String.mk (jsTrim rawName.toList) = ""
    · rw [if_pos hname]
      exact hnd
    · rw [if_neg hname, List.map_append]
      rw [List.nodup_append]
      refine ⟨hnd, List.nodup_singleton _, ?_⟩
      intro x hx hx1
      simp only [List.map_cons, List.map_nil, List.mem_singleton] at hx1
      obtain ⟨c, hc, hcid⟩ := List.mem_map.mp hx
      rw [hx1] at hcid
      exact hfresh c hc hcid

/-- Witness for C5 at a concrete instantiation: with unary (dash-free,
injective) time formatting, two same-named files at different ticks get
distinct ids. -/
theorem ids_unique_amended_witness :
    (newPaperIds (fun t => String.mk (List.replicate t 'd'))
      [{ name := "a", type := "", textResult := .timeout, docxResult := .timeout,
         pdfTextResult := .timeout, ocrResult := .timeout },
       { name := "a", type := "", textResult := .timeout, docxResult := .timeout,
         pdfTextResult := .timeout, ocrResult := .timeout }]
      (fun i => i)).Nodup := by
  have h := (ids_unique_amended (fun t => String.mk (List.replicate t 'd'))
    (fun a b hab => by
      have hlen := congrArg (fun s => s.data.length) hab
      simpa using hlen)
    (fun t hm => by
      have hm2 : '-' ∈ List.replicate t 'd' := hm
      exact absurd (List.mem_replicate.mp hm2).2 (by decide))
    [{ name := "a", type := "", textResult := .timeout, docxResult := .timeout,
       pdfTextResult := .timeout, ocrResult := .timeout },
     { name := "a", type := "", textResult := .timeout, docxResult := .timeout,
       pdfTextResult := .timeout, ocrResult := .timeout }]
    (fun i => i) { nodes := [], links := [], concepts := [] } [] "" 0).1
  exact h.mpr (by decide)

/-- Counterexample to C5 as stated: two files with the same name uploaded
in one batch while `Date.now()` yields the same millisecond (the id
computations run in the same synchronous `map`) receive the same paper
id. -/
theorem ids_unique_cex :
    ¬ (newPaperIds Nat.repr
      [{ name := "a.txt", type := "text/plain", textResult := .ok "x",
         docxResult := .timeout, pdfTextResult := .timeout, ocrResult := .timeout },
       { name := "a.txt", type := "text/plain", textResult := .ok "x",
         docxResult := .timeout, pdfTextResult := .timeout, ocrResult := .timeout }]
      (fun _ => 0)).Nodup := by
  decide

/-! ## Claim C7 -/

/-- A list is a boolean prefix of itself extended on the right. -/
theorem isPrefixOf_append_self (l r : List Char) : l.isPrefixOf (l ++ r) = true := by
  induction l with
  | nil => simp [List.isPrefixOf]
  | cons c cs ih => simp [List.isPrefixOf, ih]

/-- A paper id starts with its own file's name. -/
theorem jsStartsWith_id (n f2 : String) : jsStartsWith (n ++ "-" ++ f2) n = true := by
  unfold jsStartsWith
  have hd : (n ++ "-" ++ f2).toList = n.toList ++ ("-".toList ++ f2.toList) := by
    simp [String.toList, String.data_append]
  rw [hd]
  exact isPrefixOf_append_self _ _

/-- The id of the `i`-th accepted file. -/
theorem newPaperIds_getElem (fmt : Nat → String) (files : List FileModel)
    (clock : Nat → Nat) (i : Nat) (hi : i < files.length) :
    (newPaperIds fmt files clock)[i]?
      = some (files[i].name ++ "-" ++ fmt (clock i)) := by
  unfold newPaperIds
  rw [List.getElem?_map, List.getElem?_enum, List.getElem?_eq_getElem hi]
  rfl

/-- `find` returns index `i` when the predicate first holds there. -/
theorem pickedIdx_eq_some (files : List FileModel) (pid : String) (i : Nat)
    (hi : i < files.length)
    (hpi : jsStartsWith pid files[i].name = true)
    (hprev : ∀ j (hj : j < files.length), j < i →
      jsStartsWith pid files[j].name = false) :
    pickedIdx files pid = some i := by
  induction files generalizing i with
  | nil => exact absurd hi (Nat.not_lt_zero i)
  | cons a as ih =>
    cases i with
    | zero =>
      have h0 : jsStartsWith pid a.name = true := hpi
      unfold pickedIdx
      rw [if_pos h0]
    | succ n =>
      have h0 : jsStartsWith pid a.name = false :=
        hprev 0 (by simp) (Nat.succ_pos n)
      unfold pickedIdx
      rw [if_neg (by simp [h0])]
      have hn : n < as.length := by
        have hl := hi
        simp only [List.length_cons] at hl
        omega
      rw [ih n hn (by simpa using hpi)
        (fun j hj hji => by
          have hh := hprev (j + 1) (by simp only [List.length_cons]; omega)
            (by omega)
          simpa using hh)]
      rfl

/-- The instrumented attempt trace of one file takes one of five concrete
shapes. -/
theorem extractContentT_trace_cases (f : FileModel) :
    (extractContentT f).2 = [] ∨
    (extractContentT f).2 = [(.text, PARSING_TIMEOUT)] ∨
    (extractContentT f).2 = [(.docx, PARSING_TIMEOUT)] ∨
    (extractContentT f).2 = [(.pdfText, PARSING_TIMEOUT)] ∨
    (extractContentT f).2 = [(.pdfText, PARSING_TIMEOUT), (.ocr, OCR_TIMEOUT)] := by
  by_cases h1 : f.type = "text/plain"
  · rw [extractContentT_text f h1]
    exact Or.inr (Or.inl rfl)
  · by_cases h2 : (f.type = docxMime || jsEndsWith f.name ".docx") = true
    · rw [extractContentT_docx f h1 h2]
      exact Or.inr (Or.inr (Or.inl rfl))
    · have h2f : (f.type = docxMime || jsEndsWith f.name ".docx") = false := by
        simpa using h2
      by_cases h3 : f.type = "application/pdf"
      · have he := extractContentT_pdf f h1 h2f h3
        cases hr : f.pdfTextResult with
        | ok t =>
          rw [hr] at he
          simp only [withTimeout] at he
          by_cases hs : utf16Len (jsTrim t.toList) < 100
          · rw [if_pos hs] at he
            rw [he]
            exact Or.inr (Or.inr (Or.inr (Or.inr rfl)))
          · rw [if_neg hs] at he
            rw [he]
            exact Or.inr (Or.inr (Or.inr (Or.inl rfl)))
        | err m =>
          rw [hr] at he
          simp only [withTimeout] at he
          rw [he]
          exact Or.inr (Or.inr (Or.inr (Or.inl rfl)))
        | timeout =>
          rw [hr] at he
          simp only [withTimeout] at he
          rw [he]
          exact Or.inr (Or.inr (Or.inr (Or.inl rfl)))
      · rw [extractContentT_other f h1 h2f h3]
        exact Or.inl rfl

/-- Claim C7, amended: each loop iteration of `handleFileChange` performs
exactly one primary bounded parse attempt when the file's declared type is
supported (and none otherwise), plus at most one OCR escalation which
occurs only on the PDF branch; no attempt kind is ever repeated, and every
attempt uses the fixed timeout of its kind.  Papers are created and
processed in input order; the file processed for paper `i` is the first
accepted file whose name is a prefix of the paper's id, which is file `i`
itself whenever no earlier file's name is such a prefix (the unamended
per-file claim fails when names collide — see the counterexample). -/
theorem sequential_processing (f : FileModel) (fmt : Nat → String)
    (files : List FileModel) (clock : Nat → Nat) (i : Nat)
    (hi : i < files.length) :
    (((extractContentT f).2.map Prod.fst).Nodup) ∧
    (∀ p ∈ (extractContentT f).2,
      p.2 = if p.1 = AttemptKind.ocr then OCR_TIMEOUT else PARSING_TIMEOUT) ∧
    (AttemptKind.ocr ∈ (extractContentT f).2.map Prod.fst →
      f.type = "application/pdf") ∧
    ((f.type = "text/plain" ∨
        (f.type = docxMime || jsEndsWith f.name ".docx") = true ∨
        f.type = "application/pdf") →
      (((extractContentT f).2.map Prod.fst).filter
        (fun k => !(k == AttemptKind.ocr))).length = 1) ∧
    (¬(f.type = "text/plain" ∨
        (f.type = docxMime || jsEndsWith f.name ".docx") = true ∨
        f.type = "application/pdf") →
      (extractContentT f).2 = []) ∧
    ((∀ j (hj : j < files.length), j < i →
        jsStartsWith (files[i].name ++ "-" ++ fmt (clock i))
          files[j].name = false) →
      (newPaperIds fmt files clock)[i]?
          = some (files[i].name ++ "-" ++ fmt (clock i)) ∧
      pickedIdx files (files[i].name ++ "-" ++ fmt (clock i)) = some i) := by
  refine ⟨?_, ?_, ?_, ?_, ?_, ?_⟩
  · rcases extractContentT_trace_cases f with h | h | h | h | h <;> rw [h] <;> decide
  · rcases extractContentT_trace_cases f with h | h | h | h | h <;> rw [h] <;> decide
  · intro hmem
    by_cases h3 : f.type = "application/pdf"
    · exact h3
    · exfalso
      by_cases h1 : f.type = "text/plain"
      · rw [extractContentT_text f h1] at hmem
        simp at hmem
      · by_cases h2 : (f.type = docxMime || jsEndsWith f.name ".docx") = true
        · rw [extractContentT_docx f h1 h2] at hmem
          simp at hmem
        · rw [extractContentT_other f h1 (by simpa using h2) h3] at hmem
          simp at hmem
  · intro hsupp
    by_cases h1 : f.type = "text/plain"
    · rw [extractContentT_text f h1]
      rfl
    · by_cases h2 : (f.type = docxMime || jsEndsWith f.name ".docx") = true
      · rw [extractContentT_docx f h1 h2]
        rfl
      · have h2f : (f.type = docxMime || jsEndsWith f.name ".docx") = false := by
          simpa using h2
        by_cases h3 : f.type = "application/pdf"
        · have he := extractContentT_pdf f h1 h2f h3
          cases hr : f.pdfTextResult with
          | ok t =>
            rw [hr] at he
            simp only [withTimeout] at he
            by_cases hs : utf16Len (jsTrim t.toList) < 100
            · rw [if_pos hs] at he
              rw [he]
              rfl
            · rw [if_neg hs] at he
              rw [he]
              rfl
          | err m =>
            rw [hr] at he
            simp only [withTimeout] at he
            rw [he]
            rfl
          | timeout =>
            rw [hr] at he
            simp only [withTimeout] at he
            rw [he]
            rfl
        · rcases hsupp with h | h | h
          · exact absurd h h1
          · exact absurd h h2
          · exact absurd h h3
  · intro hunsupp
    have h1 : ¬ f.type = "text/plain" := fun h => hunsupp (Or.inl h)
    have h2 : ¬ (f.type = docxMime || jsEndsWith f.name ".docx") = true :=
      fun h => hunsupp (Or.inr (Or.inl h))
    have h3 : ¬ f.type = "application/pdf" := fun h => hunsupp (Or.inr (Or.inr h))
    rw [extractContentT_other f h1 (by simpa using h2) h3]
  · intro hfree
    refine ⟨newPaperIds_getElem fmt files clock i hi, ?_⟩
    exact pickedIdx_eq_some files _ i hi (jsStartsWith_id _ _) hfree

/-- Witness for C7 at a concrete batch: with distinct, prefix-free names
the second paper is processed against the second file. -/
theorem sequential_processing_witness :
    pickedIdx
      [{ name := "a", type := "text/plain", textResult := .ok "x",
         docxResult := .timeout, pdfTextResult := .timeout, ocrResult := .timeout },
       { name := "b", type := "text/plain", textResult := .ok "x",
         docxResult := .timeout, pdfTextResult := .timeout, ocrResult := .timeout }]
      ("b" ++ "-" ++ (fun t => String.mk (List.replicate t 'd')) 1) = some 1 := by
  have h := (sequential_processing
    { name := "a", type := "text/plain", textResult := .ok "x",
      docxResult := .timeout, pdfTextResult := .timeout, ocrResult := .timeout }
    (fun t => String.mk (List.replicate t 'd'))
    [{ name := "a", type := "text/plain", textResult := .ok "x",
       docxResult := .timeout, pdfTextResult := .timeout, ocrResult := .timeout },
     { name := "b", type := "text/plain", textResult := .ok "x",
       docxResult := .timeout, pdfTextResult := .timeout, ocrResult := .timeout }]
    (fun i => i) 1 (by decide)).2.2.2.2.2
  exact (h (fun j hj hji => by
    have hj0 : j = 0 := by omega
    subst hj0
    exact (by decide :
      jsStartsWith ("b" ++ "-" ++ String.mk (List.replicate 1 'd')) "a" = false))).2

/-- Counterexample to C7 as stated: two files with the same name in one
batch — both papers' lookups find the first file, so the first file is
parsed twice and the second is never parsed, refuting "exactly one
bounded parse attempt per file". -/
theorem sequential_processing_cex :
    pickedAll Nat.repr
      [{ name := "a.txt", type := "text/plain", textResult := .ok "x",
         docxResult := .timeout, pdfTextResult := .timeout, ocrResult := .timeout },
       { name := "a.txt", type := "text/plain", textResult := .ok "x",
         docxResult := .timeout, pdfTextResult := .timeout, ocrResult := .timeout }]
      (fun _ => 0) = [some 0, some 0] ∧
    (1 : Nat) ∉ (pickedAll Nat.repr
      [{ name := "a.txt", type := "text/plain", textResult := .ok "x",
         docxResult := .timeout, pdfTextResult := .timeout, ocrResult := .timeout },
       { name := "a.txt", type := "text/plain", textResult := .ok "x",
         docxResult := .timeout, pdfTextResult := .timeout, ocrResult := .timeout }]
      (fun _ => 0)).filterMap id := by
  constructor
  · decide
  · decide

/-! ## Claim C8 -/

/-- Evaluating the inner `forEach` fold of `variableToConceptMap`: the
name is stored for every listed variable. -/
theorem varsFold_get (vars : List String) (nm : String)
    (m : String → Option String) (x : String) :
    vars.foldl (fun m v => fun y => if y = v then some nm else m y) m x
      = if vars.contains x then some nm else m x := by
  induction vars generalizing m with
  | nil => simp
  | cons v vs ih =>
    simp only [List.foldl_cons]
    rw [ih]
    by_cases hvs : vs.contains x = true
    · rw [if_pos hvs, if_pos (by
        simp only [List.contains_cons, Bool.or_eq_true]
        exact Or.inr hvs)]
    · rw [if_neg hvs]
      by_cases hxv : x = v
      · have hc : (v :: vs).contains x = true := by
          simp [List.contains_cons, hxv]
        rw [if_pos hc]
        show (if x = v then some nm else m x) = some nm
        rw [if_pos hxv]
      · have hc : ¬ (v :: vs).contains x = true := by
          simp only [List.contains_cons, Bool.or_eq_true, beq_iff_eq]
          push_neg
          exact ⟨hxv, hvs⟩
        rw [if_neg hc]
        show (if x = v then some nm else m x) = m x
        rw [if_neg hxv]

/-- The outer fold of `variableToConceptMap` realises last-listing-wins:
its lookup is the name of the last concept listing the variable. -/
theorem varMapWF_fold (cs : List RConcept) (m : String → Option String)
    (x : String) :
    cs.foldl
      (fun m c => c.vars.foldl
        (fun m v => fun y => if y = v then some c.name else m y) m) m x
      = match lastListing cs x with
        | some c => some c.name
        | none => m x := by
  induction cs generalizing m with
  | nil => simp [lastListing]
  | cons c cs ih =>
    simp only [List.foldl_cons]
    rw [ih]
    cases hL : lastListing cs x with
    | some c2 =>
      have hcons : lastListing (c :: cs) x = some c2 := by
        unfold lastListing at hL ⊢
        rw [List.reverse_cons, List.find?_append, hL]
        rfl
      rw [hcons]
    | none =>
      have hcons : lastListing (c :: cs) x
          = if c.vars.contains x then some c else none := by
        unfold lastListing at hL ⊢
        rw [List.reverse_cons, List.find?_append, hL]
        simp only [List.find?, Option.or]
        by_cases hm : x ∈ c.vars <;> simp [hm]
      rw [hcons, varsFold_get]
      by_cases hc : c.vars.contains x = true
      · rw [if_pos hc, if_pos hc]
      · rw [if_neg hc, if_neg hc]

/-- The group computed by the source equals the specification-level
group. -/
theorem groupOfWF_eq_groupSpec (cs : List RConcept) (x : String) :
    groupOfWF (varMapWF cs) x = groupSpec cs x := by
  unfold groupOfWF groupSpec varMapWF
  rw [varMapWF_fold]
  cases lastListing cs x with
  | some c => rfl
  | none => rfl

/-- A successful `nodeMap` lookup returns an element of the node list (or
a hit in the initial map). -/
theorem nodeMapFold_mem (nodes : List TNode) (m0 : String → Option TNode)
    (x : String) (n : TNode)
    (h : nodes.foldl (fun m nn => fun y => if y = nn.id then some nn else m y)
          m0 x = some n) :
    n ∈ nodes ∨ m0 x = some n := by
  induction nodes generalizing m0 with
  | nil => exact Or.inr h
  | cons a as ih =>
    simp only [List.foldl_cons] at h
    rcases ih _ h with hmem | hup
    · exact Or.inl (List.mem_cons_of_mem _ hmem)
    · by_cases hx : x = a.id
      · have ha : some a = some n := by
          rw [← hup]
          show some a = if x = a.id then some a else m0 x
          rw [if_pos hx]
        left
        rw [show a = n from by injection ha]
        exact List.mem_cons_self _ _
      · right
        rwa [if_neg hx] at hup

/-- Claim C8, amended: for every schema-conforming model response the
extraction result has referential integrity — every returned link's
source and target are ids of returned nodes, every node's group is the
name of the last response concept listing its id (with `'Default'` when
none does, or when that concept's name is the empty string, which is
falsy under `|| 'Default'` — see the counterexample for the empty-name
case), and every child of every returned concept is a returned node. -/
theorem graph_integrity (numStr : Nat → String) (r : RResponse) :
    (∀ l ∈ (extractCausalGraphWF numStr r).links,
      l.source ∈ (extractCausalGraphWF numStr r).nodes.map TNode.id ∧
      l.target ∈ (extractCausalGraphWF numStr r).nodes.map TNode.id) ∧
    (∀ n ∈ (extractCausalGraphWF numStr r).nodes,
      n.group = groupSpec r.concepts n.id) ∧
    (∀ c ∈ (extractCausalGraphWF numStr r).concepts, ∀ ch ∈ c.children,
      ch ∈ (extractCausalGraphWF numStr r).nodes) := by
  refine ⟨?_, ?_, ?_⟩
  · intro l hl
    have hf := List.mem_filter.mp hl
    have hcond := hf.2
    rw [Bool.and_eq_true] at hcond
    constructor
    · have hs : l.source ∈ (wfNodes r).map (fun n => n.id) :=
        List.elem_iff.mp hcond.1
      exact hs
    · have ht : l.target ∈ (wfNodes r).map (fun n => n.id) :=
        List.elem_iff.mp hcond.2
      exact ht
  · intro n hn
    obtain ⟨rn, _, hrn⟩ := List.mem_map.mp hn
    rw [← hrn]
    exact groupOfWF_eq_groupSpec r.concepts rn.id
  · intro c hc ch hch
    obtain ⟨p, _, hp⟩ := List.mem_map.mp hc
    rw [← hp] at hch
    obtain ⟨v, _, hv⟩ := List.mem_filterMap.mp hch
    rcases nodeMapFold_mem (wfNodes r) (fun _ => none) v ch hv with hmem | habs
    · exact hmem
    · cases habs

/-- Witness for C8: in a response with one node listed by one concept the
returned group is that concept's name. -/
theorem graph_integrity_witness :
    ({ id := "x", isCore := true, group := "A" } : TNode).group
      = groupSpec [{ name := "A", vars := ["x"] }] "x" :=
  (graph_integrity Nat.repr
    { nodes := [{ id := "x", isCore := true }], links := [],
      concepts := [{ name := "A", vars := ["x"] }] }).2.1
    { id := "x", isCore := true, group := "A" } (by decide)

/-- Counterexample to C8 as stated: a concept with the empty string as
name lists node "x"; the node's group becomes `'Default'`, not the name
of the listing concept, because the empty name is falsy. -/
theorem graph_integrity_cex :
    ((extractCausalGraphWF Nat.repr
        { nodes := [{ id := "x", isCore := true }], links := [],
          concepts := [{ name := "", vars := ["x"] }] }).nodes.map TNode.group
      = ["Default"]) ∧
    ((({ nodes := [{ id := "x", isCore := true }], links := [],
          concepts := [{ name := "", vars := ["x"] }] } : RResponse).concepts.filter
        (fun c => c.vars.contains "x")).map RConcept.name = [""]) ∧
    ("Default" : String) ≠ "" := by
  refine ⟨by decide, by decide, by decide⟩

/-! ## Claim C6 -/

/-- The inner `forEach` over an encoded variable list preserves the
map correspondence. -/
theorem dynSetFold_rel (vars : List String) (nm : String)
    (m : Option JVal → Option JVal) (mW : String → Option String)
    (hrel : ∀ s, m (some (.str s)) = (mW s).map JVal.str) (x : String) :
    (vars.map JVal.str).foldl
        (fun m v => dynMapSet m (some v) (some (.str nm))) m (some (.str x))
      = ((vars.foldl (fun m v => fun y => if y = v then some nm else m y) mW) x).map
          JVal.str := by
  induction vars generalizing m mW with
  | nil => exact hrel x
  | cons v vs ih =>
    simp only [List.map_cons, List.foldl_cons]
    apply ih
    intro s
    show (if optJvalEqb (some (JVal.str s)) (some (JVal.str v))
          then some (JVal.str nm) else m (some (JVal.str s)))
        = (if s = v then some nm else mW s).map JVal.str
    have hb : optJvalEqb (some (JVal.str s)) (some (JVal.str v)) = (s == v) := rfl
    rw [hb]
    by_cases hsv : s = v
    · rw [if_pos (by simp [hsv]), if_pos hsv]
      rfl
    · rw [if_neg (by simp only [beq_iff_eq]; exact hsv), if_neg hsv]
      exact hrel s

/-- `buildVarMap` over an encoded concept list succeeds and realises the
typed fold of `variableToConceptMap`. -/
theorem buildVarMap_encode (cs : List RConcept)
    (m : Option JVal → Option JVal) (mW : String → Option String)
    (hrel : ∀ s, m (some (.str s)) = (mW s).map JVal.str) :
    ∃ m2, buildVarMap (cs.map encodeConcept) m = .ok m2 ∧
      ∀ s, m2 (some (.str s))
        = ((cs.foldl (fun m c => c.vars.foldl
            (fun m v => fun y => if y = v then some c.name else m y) m) mW) s).map
            JVal.str := by
  induction cs generalizing m mW with
  | nil => exact ⟨m, rfl, fun s => hrel s⟩
  | cons c cs ih =>
    simp only [List.map_cons, List.foldl_cons]
    have hstep : buildVarMap (encodeConcept c :: cs.map encodeConcept) m
        = buildVarMap (cs.map encodeConcept)
            ((c.vars.map JVal.str).foldl
              (fun m v => dynMapSet m (some v) (some (.str c.name))) m) := rfl
    rw [hstep]
    exact ih _ _ (fun s => dynSetFold_rel c.vars c.name m mW hrel s)

/-- `buildNodes` over an encoded node list succeeds with the encoded
typed nodes. -/
theorem buildNodes_encode (m : Option JVal → Option JVal)
    (mW : String → Option String)
    (hrel : ∀ s, m (some (.str s)) = (mW s).map JVal.str)
    (ns : List RNode) :
    buildNodes m (ns.map encodeNode)
      = .ok (ns.map (fun n =>
          { id := some (.str n.id), isCore := some (.bool n.isCore),
            group := .str (groupOfWF mW n.id) })) := by
  induction ns with
  | nil => rfl
  | cons n rest ih =>
    simp only [List.map_cons]
    have hstep : buildNodes m (encodeNode n :: rest.map encodeNode)
        = match buildNodes m (rest.map encodeNode) with
          | .error e => .error e
          | .ok out =>
            .ok ({ id := some (.str n.id), isCore := some (.bool n.isCore),
                   group := jsOrDefault (m (some (.str n.id))) } :: out) := rfl
    have hg : jsOrDefault (m (some (JVal.str n.id))) = .str (groupOfWF mW n.id) := by
      rw [hrel n.id]
      unfold groupOfWF
      cases hW : mW n.id with
      | none => rfl
      | some nm =>
        show jsOrDefault (some (JVal.str nm)) = .str (if nm = "" then "Default" else nm)
        have hred : jsOrDefault (some (JVal.str nm))
            = if truthy (JVal.str nm) then JVal.str nm else JVal.str "Default" := rfl
        rw [hred]
        by_cases hnm : nm = ""
        · rw [hnm]
          rfl
        · rw [if_pos (by simp [truthy, hnm]), if_neg hnm]
    rw [hstep, ih, hg]

/-- Membership in the encoded node-id set coincides with typed
membership. -/
theorem dynContains_eq (ids : List String) (a : String) :
    ((ids.map (fun s => some (JVal.str s))).any
        (fun x => optJvalEqb x (some (.str a))))
      = ids.contains a := by
  induction ids with
  | nil => rfl
  | cons b bs ih =>
    simp only [List.map_cons, List.any_cons, List.contains_cons]
    rw [ih]
    have hb : optJvalEqb (some (JVal.str b)) (some (JVal.str a)) = (b == a) := rfl
    rw [hb]
    by_cases hab : a = b
    · rw [hab]
    · rw [beq_false_of_ne hab, beq_false_of_ne (fun h => hab h.symm)]

/-- `filterLinks` over encoded links succeeds with the encoded typed
filter. -/
theorem filterLinks_encode (idsW : List String) (ls : List RLink) :
    filterLinks (idsW.map (fun s => some (JVal.str s))) (ls.map encodeLink)
      = .ok ((ls.filter (fun l => idsW.contains l.source &&
          idsW.contains l.target)).map encodeLink) := by
  induction ls with
  | nil => rfl
  | cons l rest ih =>
    simp only [List.map_cons]
    have hstep : filterLinks (idsW.map (fun s => some (JVal.str s)))
        (encodeLink l :: rest.map encodeLink)
        = match filterLinks (idsW.map (fun s => some (JVal.str s)))
            (rest.map encodeLink) with
          | .error e => .error e
          | .ok out =>
            .ok (if (idsW.map (fun s => some (JVal.str s))).any
                    (fun x => optJvalEqb x (some (.str l.source))) &&
                  (idsW.map (fun s => some (JVal.str s))).any
                    (fun x => optJvalEqb x (some (.str l.target)))
                 then encodeLink l :: out else out) := rfl
    rw [hstep, ih, dynContains_eq, dynContains_eq]
    simp only [List.filter_cons]
    by_cases hc : (idsW.contains l.source && idsW.contains l.target) = true
    · rw [if_pos hc, if_pos hc]
      rfl
    · rw [if_neg hc, if_neg hc]

/-- The encoded `nodeMap` fold realises the typed `nodeMap`. -/
theorem nodeMapFold_encode (nodes : List TNode)
    (m0 : Option JVal → Option DynNode) (mW0 : String → Option TNode)
    (hrel : ∀ s, m0 (some (.str s)) = (mW0 s).map encodeTNode) (x : String) :
    ((nodes.map encodeTNode).foldl
        (fun m n => fun y => if optJvalEqb y n.id then some n else m y) m0)
        (some (.str x))
      = ((nodes.foldl (fun m n => fun y => if y = n.id then some n else m y) mW0) x).map
          encodeTNode := by
  induction nodes generalizing m0 mW0 with
  | nil => exact hrel x
  | cons n rest ih =>
    simp only [List.map_cons, List.foldl_cons]
    apply ih
    intro s
    show (if optJvalEqb (some (JVal.str s)) (encodeTNode n).id
          then some (encodeTNode n) else m0 (some (JVal.str s)))
        = (if s = n.id then some n else mW0 s).map encodeTNode
    have hb : optJvalEqb (some (JVal.str s)) (encodeTNode n).id = (s == n.id) := rfl
    rw [hb]
    by_cases hs : s = n.id
    · rw [if_pos (by simp [hs]), if_pos hs]
      rfl
    · rw [if_neg (by simp only [beq_iff_eq]; exact hs), if_neg hs]
      exact hrel s

/-- `buildConceptsFrom` over encoded concepts succeeds with the encoded
typed concepts (indices from `i`). -/
theorem buildConcepts_encode (numStr : Nat → String)
    (dmap : Option JVal → Option DynNode) (mW : String → Option TNode)
    (hrel : ∀ s, dmap (some (.str s)) = (mW s).map encodeTNode)
    (i : Nat) (cs : List RConcept) :
    buildConceptsFrom numStr dmap i (cs.map encodeConcept)
      = .ok ((cs.enumFrom i).map (fun p =>
          { id := p.2.name ++ "-" ++ numStr p.1,
            name := some (.str p.2.name),
            children := (p.2.vars.filterMap (fun v => mW v)).map encodeTNode })) := by
  induction cs generalizing i with
  | nil => rfl
  | cons c rest ih =>
    simp only [List.map_cons]
    have hstep : buildConceptsFrom numStr dmap i
        (encodeConcept c :: rest.map encodeConcept)
        = match buildConceptsFrom numStr dmap (i + 1) (rest.map encodeConcept) with
          | .error e => .error e
          | .ok out =>
            .ok ({ id := jsDisplayOpt (some (.str c.name)) ++ "-" ++ numStr i,
                   name := some (.str c.name),
                   children := (c.vars.map JVal.str).filterMap
                     (fun v => dmap (some v)) } :: out) := rfl
    have hch : (c.vars.map JVal.str).filterMap (fun v => dmap (some v))
        = (c.vars.filterMap (fun v => mW v)).map encodeTNode := by
      rw [List.filterMap_map, List.map_filterMap]
      congr 1
      funext v
      exact hrel v
    have hid : jsDisplayOpt (some (JVal.str c.name)) = c.name := rfl
    rw [hstep, ih (i + 1), hch, hid]
    rfl

/-- Bridge: on an encoded schema-conforming response the dynamic phase of
`extractCausalGraph` succeeds with exactly the encoded typed result. -/
theorem extract_bridge (numStr : Nat → String) (r : RResponse) :
    extractCausalGraph numStr (encodeResp r)
      = .ok (encodeOut (extractCausalGraphWF numStr r)) := by
  obtain ⟨m2, hm2, hm2rel0⟩ := buildVarMap_encode r.concepts (fun _ => none)
    (fun _ => none) (fun s => rfl)
  have hm2rel : ∀ s, m2 (some (JVal.str s))
      = (varMapWF r.concepts s).map JVal.str := hm2rel0
  have hbn := buildNodes_encode m2 (varMapWF r.concepts) hm2rel r.nodes
  have hids : (r.nodes.map (fun n =>
        ({ id := some (.str n.id), isCore := some (.bool n.isCore),
           group := .str (groupOfWF (varMapWF r.concepts) n.id) } : DynNode))).map
        (fun n => n.id)
      = (r.nodes.map (fun n => n.id)).map (fun s => some (JVal.str s)) := by
    rw [List.map_map, List.map_map]
    rfl
  have hfl := filterLinks_encode (r.nodes.map (fun n => n.id)) r.links
  have hfuse : (wfNodes r).map encodeTNode
      = r.nodes.map (fun n =>
          ({ id := some (.str n.id), isCore := some (.bool n.isCore),
             group := .str (groupOfWF (varMapWF r.concepts) n.id) } : DynNode)) := by
    unfold wfNodes
    rw [List.map_map]
    rfl
  have hnmrel : ∀ s, buildNodeMap (r.nodes.map (fun n =>
        ({ id := some (.str n.id), isCore := some (.bool n.isCore),
           group := .str (groupOfWF (varMapWF r.concepts) n.id) } : DynNode)))
        (some (JVal.str s))
      = (nodeMapWF (wfNodes r) s).map encodeTNode := by
    intro s
    have h := nodeMapFold_encode (wfNodes r) (fun _ => none) (fun _ => none)
      (fun t => rfl) s
    rw [hfuse] at h
    exact h
  have hbc : buildConcepts numStr (buildNodeMap (r.nodes.map (fun n =>
        ({ id := some (.str n.id), isCore := some (.bool n.isCore),
           group := .str (groupOfWF (varMapWF r.concepts) n.id) } : DynNode))))
        (r.concepts.map encodeConcept)
      = .ok ((r.concepts.enumFrom 0).map (fun p =>
          { id := p.2.name ++ "-" ++ numStr p.1,
            name := some (.str p.2.name),
            children := (p.2.vars.filterMap
              (fun v => nodeMapWF (wfNodes r) v)).map encodeTNode })) :=
    buildConcepts_encode numStr _ (nodeMapWF (wfNodes r)) hnmrel 0 r.concepts
  unfold extractCausalGraph
  simp only [
    show jsField (encodeResp r) "nodes"
      = .ok (some (.arr (r.nodes.map encodeNode))) from rfl,
    show jsField (encodeResp r) "links"
      = .ok (some (.arr (r.links.map encodeLink))) from rfl,
    show jsField (encodeResp r) "concepts"
      = .ok (some (.arr (r.concepts.map encodeConcept))) from rfl,
    show falsyOpt (some (JVal.arr (r.nodes.map encodeNode))) = false from rfl,
    show falsyOpt (some (JVal.arr (r.links.map encodeLink))) = false from rfl,
    show falsyOpt (some (JVal.arr (r.concepts.map encodeConcept))) = false from rfl,
    Bool.or_self, Bool.or_false, Bool.false_or,
    show asArr (some (JVal.arr (r.concepts.map encodeConcept)))
      = .ok (r.concepts.map encodeConcept) from rfl,
    show asArr (some (JVal.arr (r.nodes.map encodeNode)))
      = .ok (r.nodes.map encodeNode) from rfl,
    show asArr (some (JVal.arr (r.links.map encodeLink)))
      = .ok (r.links.map encodeLink) from rfl,
    hm2, hbn, hids, hfl, hbc]
  refine congrArg Except.ok ?_
  unfold encodeOut extractCausalGraphWF wfLinks wfConcepts wfNodes
  simp only [List.map_map]
  rfl

/-- Claim C6, amended: `extractCausalGraph` throws the validation error
when (the response being non-`null`) any of its `nodes`, `links` or
`concepts` fields is missing or falsy; but it also throws a `TypeError`
when a present field is not of the expected array-of-records shape (see
the counterexample), and on a schema-conforming response it returns the
result built from the response.  `generateTopicSuggestions` throws if and
only if the parsed response is not a non-empty array, and otherwise
returns the array. -/
theorem llm_validation_amended (numStr : Nat → String) (resp : JVal)
    (r : RResponse) :
    (resp ≠ .null →
      (falsyOpt (fieldOf resp "nodes") || falsyOpt (fieldOf resp "links") ||
        falsyOpt (fieldOf resp "concepts")) = true →
      extractCausalGraph numStr resp = .error .invalidData) ∧
    (extractCausalGraph numStr (encodeResp r)
      = .ok (encodeOut (extractCausalGraphWF numStr r))) ∧
    (∀ x xs, resp = .arr (x :: xs) →
      generateTopicSuggestionsCheck resp = .ok (x :: xs)) ∧
    ((¬ ∃ x xs, resp = .arr (x :: xs)) →
      generateTopicSuggestionsCheck resp
        = .error "Failed to generate valid topic suggestions.") := by
  refine ⟨?_, extract_bridge numStr r, ?_, ?_⟩
  · intro hnn hfalsy
    have hjf : ∀ k, jsField resp k = .ok (fieldOf resp k) := by
      intro k
      cases resp with
      | null => exact absurd rfl hnn
      | bool b => rfl
      | num n => rfl
      | str s => rfl
      | arr xs => rfl
      | obj fs => rfl
    unfold extractCausalGraph
    simp only [hjf, hfalsy, if_true]
  · intro x xs hx
    subst hx
    unfold generateTopicSuggestionsCheck
    simp [truthy, isArrayJ, jArrayElems]
  · intro hne
    unfold generateTopicSuggestionsCheck
    cases resp with
    | arr xs =>
      cases xs with
      | nil => rfl
      | cons x hxs => exact absurd ⟨x, hxs, rfl⟩ hne
    | null => rfl
    | bool b => simp [truthy, isArrayJ, jArrayElems]
    | num n => simp [truthy, isArrayJ, jArrayElems]
    | str s => simp [truthy, isArrayJ, jArrayElems]
    | obj fs => rfl

/-- Witness for C6: a response object with none of the three fields is
rejected with the validation error. -/
theorem llm_validation_amended_witness :
    extractCausalGraph Nat.repr (.obj []) = .error .invalidData :=
  (llm_validation_amended Nat.repr (.obj [])
    { nodes := [], links := [], concepts := [] }).1 (by simp) rfl

/-- Counterexample to C6 as stated: a response whose `nodes` field is the
(truthy) number 5 passes the falsy check, yet `responseNodes.map` throws
a `TypeError` — so the extraction throws although none of the three
fields is missing or falsy. -/
theorem llm_validation_cex :
    extractCausalGraph Nat.repr
      (.obj [("nodes", .num 5), ("links", .arr []), ("concepts", .arr [])])
      = .error .typeError ∧
    falsyOpt (fieldOf
      (.obj [("nodes", .num 5), ("links", .arr []), ("concepts", .arr [])] : JVal)
      "nodes") = false ∧
    falsyOpt (fieldOf
      (.obj [("nodes", .num 5), ("links", .arr []), ("concepts", .arr [])] : JVal)
      "links") = false ∧
    falsyOpt (fieldOf
      (.obj [("nodes", .num 5), ("links", .arr []), ("concepts", .arr [])] : JVal)
      "concepts") = false := by
  refine ⟨rfl, rfl, rfl, rfl⟩
